import Mathlib

/-!
# Federate: a multicast handler registry

Shallow embedding of `src/include/Federate/Federate.h`.

* A handler (`std::function<R(Args...)>`) is a function `A → m R`, where `A` is the
  argument pack and `m` is the effect of running a handler body: `Id` for a pure
  handler, `Eff S E` for a body that may mutate captured state `S` and may throw `E`.
* `std::make_shared` allocates a control block in a `Heap`; a `Tracker`
  (`std::shared_ptr`) and a `WeakTracker` (`std::weak_ptr`) are addresses of control
  blocks, and the number of `Tracker`s alive for a block is its `strong` count.
* `std::vector` is a `List`; `push_back` / `emplace_back` append at the end.
* `size_t` counts are natural numbers: a vector never holds `2^64` entries.
* The embedding is of sequential executions: `this->lock.acquire()` takes an
  uncontended guard on entry and releases it at scope exit, and does not touch the
  entry sequence, so it does not appear in the definitions of the operations; the
  section on `MutexMember` puts the guard around them.
* A handler body reaches neither the registry nor a Tracker: the heap and the entry
  sequence are no part of the state a handler acts on. The section on handlers that act
  on Trackers lifts this for Trackers, the section on handlers under the guard for calls
  back into the registry.
* `std::async(std::launch::async, closure)` schedules a unit of work: the embedding keeps
  the closure and what it captured; when the unit runs relative to its caller is not
  modelled.
-/

/-! ## Shared ownership -/

/-- Control block of `std::make_shared<F>`: the stored callable and `use_count()`, the
number of `std::shared_ptr` owners (Trackers) currently alive. -/
structure ControlBlock (F : Type) where
  object : F
  strong : Nat

/-- Every control block allocated so far, addressed by position. -/
abbrev Heap (F : Type) : Type := List (ControlBlock F)

/-- `typedef std::shared_ptr<FederateFunction> Tracker`: the address of a control block.
Each live Tracker accounts for one unit of that block's `strong` count. -/
abbrev Tracker : Type := Nat

/-- `typedef std::weak_ptr<FederateFunction> WeakTracker`: the address of a control block,
owning nothing. -/
abbrev WeakTracker : Type := Nat

/-- `std::make_shared<F>(std::move(f))`: a fresh control block owned by the one returned
shared pointer. -/
def make_shared {F : Type} (heap : Heap F) (f : F) : Heap F × Tracker :=
  (heap ++ [ControlBlock.mk f 1], heap.length)

/-- `f.lock()`: `none` is `nullptr`, returned once no owner is left; otherwise the callable
that the returned shared pointer points to. -/
def lock {F : Type} (heap : Heap F) (f : WeakTracker) : Option F :=
  match heap[f]? with
  | some cb => if cb.strong = 0 then none else some cb.object
  | none => none

/-- Copy construction of a Tracker: one more owner. Only an existing owner can be copied,
so a block without owners stays without. -/
def Tracker.copy {F : Type} (heap : Heap F) (t : Tracker) : Heap F :=
  heap.modify (fun cb => if cb.strong = 0 then cb else ControlBlock.mk cb.object (cb.strong + 1)) t

/-- Destruction of a Tracker: one owner fewer; the callable is destroyed when the count
reaches zero. -/
def Tracker.drop {F : Type} (heap : Heap F) (t : Tracker) : Heap F :=
  heap.modify (fun cb => ControlBlock.mk cb.object (cb.strong - 1)) t

/-! ## Storage / policy layer: `FederateBase` -/

/-- Element type of `VectorMember<Tracked, T>::vec`: `T` in the primary template,
`std::weak_ptr<T>` in the `VectorMember<true, T>` specialisation. -/
abbrev VectorElem : Bool → Type → Type
  | false, T => T
  | true, _ => WeakTracker

/-- `template<bool, typename T> struct VectorMember`. -/
structure VectorMember (Tracked : Bool) (T : Type) where
  vec : List (VectorElem Tracked T)

/-- `template<typename FederateFunction, bool Tracked, bool ThreadSafe> class FederateBase`:
the member `functions`. -/
structure FederateBase (F : Type) (Tracked : Bool) where
  functions : VectorMember Tracked F

namespace FederateBase

variable {F : Type} {Tracked : Bool}

/-- A default constructed registry. -/
def init : FederateBase F Tracked := ⟨⟨[]⟩⟩

/-- `void push_back(FederateFunction f)`, the overload enabled when `!Tracked`. -/
def push_back_untracked (fed : FederateBase F false) (f : F) : FederateBase F false :=
  ⟨⟨fed.functions.vec ++ [f]⟩⟩

/-- `Tracker push_back(FederateFunction f)`, the overload enabled when `Tracked`: returns
the heap after `make_shared`, the registry after `vec.push_back(tracker)`, and the
Tracker handed to the caller. -/
def push_back_tracked (heap : Heap F) (fed : FederateBase F true) (f : F) :
    Heap F × FederateBase F true × Tracker :=
  let shared := make_shared heap f
  let tracker := shared.2
  (shared.1, ⟨⟨fed.functions.vec ++ [tracker]⟩⟩, tracker)

/-- `size_t size() const`. -/
def size (fed : FederateBase F Tracked) : Nat :=
  fed.functions.vec.length

/-- `void clear()`. -/
def clear (_fed : FederateBase F Tracked) : FederateBase F Tracked :=
  ⟨⟨[]⟩⟩

/-- `bool empty() const`. -/
def empty (fed : FederateBase F Tracked) : Bool :=
  fed.functions.vec.isEmpty

/-- The predicate `f.lock() == nullptr` of `cleanTracked` and `garbageSizeTracked`. -/
def expired (heap : Heap F) (f : WeakTracker) : Bool :=
  (lock heap f).isNone

end FederateBase

/-- `std::remove_if(begin, end, pred)`: the elements for which `pred` is false are moved to
the front in their original order; the result is the rearranged range together with the
new logical end. What lies past the new end is unspecified in C++; here it is the
removed elements. -/
def remove_if {α : Type} (pred : α → Bool) (v : List α) : List α × Nat :=
  (v.filter (fun x => !pred x) ++ v.filter pred, (v.filter (fun x => !pred x)).length)

/-- `v.erase(first, std::end(v))`: drops everything from position `first` on. -/
def erase_to_end {α : Type} (v : List α) (first : Nat) : List α :=
  v.take first

namespace FederateBase

variable {F : Type}

/-- `void cleanTracked(std::true_type)`. -/
def cleanTracked_true (heap : Heap F) (fed : FederateBase F true) : FederateBase F true :=
  let moved := remove_if (expired heap) fed.functions.vec
  ⟨⟨erase_to_end moved.1 moved.2⟩⟩

/-- `void cleanTracked(std::false_type)`: an empty body. -/
def cleanTracked_false (fed : FederateBase F false) : FederateBase F false :=
  fed

/-- `size_t garbageSizeTracked(std::true_type) const`: `std::count_if` over the vector. -/
def garbageSizeTracked_true (heap : Heap F) (fed : FederateBase F true) : Nat :=
  fed.functions.vec.countP (expired heap)

/-- `size_t garbageSizeTracked(std::false_type) const`. -/
def garbageSizeTracked_false (_fed : FederateBase F false) : Nat :=
  0

/-- `size_t garbageSize() const`: tag dispatch on `Tracked`. -/
def garbageSize (heap : Heap F) : {Tracked : Bool} → FederateBase F Tracked → Nat
  | true, fed => garbageSizeTracked_true heap fed
  | false, fed => garbageSizeTracked_false fed

/-- `void clean()`: tag dispatch on `Tracked`. -/
def clean (heap : Heap F) : {Tracked : Bool} → FederateBase F Tracked → FederateBase F Tracked
  | true, fed => cleanTracked_true heap fed
  | false, fed => cleanTracked_false fed

end FederateBase

/-! ## Dispatch layer: `Federate<R(Args...), Tracked, ThreadSafe>` -/

namespace Federate

variable {m : Type → Type} [Monad m] {A R : Type}

/-- The `for(auto& f : this->functions.vec)` loop of `invokeTracked(args..., std::true_type)`,
with the local `results` as accumulator. The bodies run by this loop act on no Tracker, so
that `f.lock()` of every iteration finds the heap of the time of the call;
`invokeTracked_true_acting_loop` is the loop for bodies that do. -/
def invokeTracked_true_loop (heap : Heap (A → m R)) (args : A) :
    List WeakTracker → List R → m (List R)
  | [], results => pure results
  | f :: rest, results =>
    match lock heap f with
    | some func => do
      let r ← func args
      invokeTracked_true_loop heap args rest (results ++ [r])
    | none => invokeTracked_true_loop heap args rest results

/-- `std::vector<R> invokeTracked(Args... args, std::true_type)`. -/
def invokeTracked_true (heap : Heap (A → m R)) (fed : FederateBase (A → m R) true) (args : A) :
    m (List R) :=
  invokeTracked_true_loop heap args fed.functions.vec []

/-- The `for(auto& f : this->functions.vec)` loop of `invokeTracked(args..., std::false_type)`,
with the local `results` as accumulator. -/
def invokeTracked_false_loop (args : A) : List (A → m R) → List R → m (List R)
  | [], results => pure results
  | f :: rest, results => do
    let r ← f args
    invokeTracked_false_loop args rest (results ++ [r])

/-- `std::vector<R> invokeTracked(Args... args, std::false_type)`. -/
def invokeTracked_false (fed : FederateBase (A → m R) false) (args : A) : m (List R) :=
  invokeTracked_false_loop args fed.functions.vec []

/-- `std::vector<R> invoke(Args... args)`: tag dispatch on `Tracked`. -/
def invoke (heap : Heap (A → m R)) :
    {Tracked : Bool} → FederateBase (A → m R) Tracked → A → m (List R)
  | true, fed, args => invokeTracked_true heap fed args
  | false, fed, args => invokeTracked_false fed args

end Federate

/-! ## Handlers of the test suite (`src/test/test.cpp`, `TEST(Federate, IntInt)`) -/

/-- `[](int x)->int { return x * 2; }`, on the range where `int` does not overflow. -/
def multiplyBy2 (x : Int) : Int := x * 2

/-- `[](int x)->int { return static_cast<int>(std::pow(2, x)); }`, on the range where the
power fits an `int`; for a negative exponent the power is a fraction below one, which the
cast truncates to 0. -/
def powerOf2 (x : Int) : Int := if x < 0 then 0 else 2 ^ x.toNat

/-- `[](int x)->int { return static_cast<int>(std::pow(x, 2)); }`, on the range where the
square fits an `int`. -/
def square (x : Int) : Int := x ^ 2

/-- The registry of `TEST(Federate, IntInt)` after its three `push_back` calls. -/
def testIntInt : FederateBase (Int → Id Int) false :=
  ((FederateBase.init.push_back_untracked multiplyBy2).push_back_untracked powerOf2).push_back_untracked
    square

/-! ## A client program around one tracked registry -/

/-- The memory a client of a tracked registry works on: the shared allocations and the
registry itself. -/
structure TrackedState (F : Type) where
  heap : Heap F
  fed : FederateBase F true

/-- One action of a client: a call of the registry's public interface, or the copy or
destruction of a Tracker the client holds. `push_back` stands for a call whose returned
Tracker the client stores; discarding it is a later `drop`. -/
inductive ClientAction (m : Type → Type) (A R : Type) : Type
  | push_back (f : A → m R)
  | copy (t : Tracker)
  | drop (t : Tracker)
  | invoke (args : A)
  | size
  | empty
  | garbageSize
  | clean
  | clear

/-- What an action hands back to the client. -/
inductive Returned (m : Type → Type) (R : Type) : Type
  | nothing
  | tracker (t : Tracker)
  | results (x : m (List R))
  | count (n : Nat)
  | flag (b : Bool)

namespace TrackedState

variable {m : Type → Type} [Monad m] {A R : Type}

/-- A fresh program: nothing allocated, an empty registry. -/
def init {F : Type} : TrackedState F := ⟨[], FederateBase.init⟩

/-- Effect of one action on the memory, and what it returns. -/
def step (s : TrackedState (A → m R)) : ClientAction m A R → TrackedState (A → m R) × Returned m R
  | .push_back f =>
    let r := FederateBase.push_back_tracked s.heap s.fed f
    (⟨r.1, r.2.1⟩, .tracker r.2.2)
  | .copy t => (⟨Tracker.copy s.heap t, s.fed⟩, .nothing)
  | .drop t => (⟨Tracker.drop s.heap t, s.fed⟩, .nothing)
  | .invoke args => (s, .results (Federate.invoke s.heap s.fed args))
  | .size => (s, .count s.fed.size)
  | .empty => (s, .flag s.fed.empty)
  | .garbageSize => (s, .count (FederateBase.garbageSize s.heap s.fed))
  | .clean => (⟨s.heap, FederateBase.clean s.heap s.fed⟩, .nothing)
  | .clear => (⟨s.heap, s.fed.clear⟩, .nothing)

/-- Runs a sequence of actions: the final memory and everything returned on the way. -/
def run (s : TrackedState (A → m R)) :
    List (ClientAction m A R) → TrackedState (A → m R) × List (Returned m R)
  | [] => (s, [])
  | c :: cs => ((run (step s c).1 cs).1, (step s c).2 :: (run (step s c).1 cs).2)

/-- The callables an `invoke` would reach now: the entries that are not expired, in
sequence order. -/
def live {F : Type} (s : TrackedState F) : List F :=
  s.fed.functions.vec.filterMap (lock s.heap)

/-- Every entry of the registry points into the heap. -/
def InBounds {F : Type} (s : TrackedState F) : Prop :=
  ∀ w ∈ s.fed.functions.vec, w < s.heap.length

/-- Every entry points into the heap and no control block is entered twice: each
`push_back` allocates a block of its own. -/
def WF {F : Type} (s : TrackedState F) : Prop :=
  s.InBounds ∧ s.fed.functions.vec.Nodup

end TrackedState

/-- What `invoke` returned, among everything a run returned. -/
def invokeResults {m : Type → Type} {R : Type} : List (Returned m R) → List (m (List R))
  | [] => []
  | .results x :: rest => x :: invokeResults rest
  | _ :: rest => invokeResults rest

/-- Two handlers registered, each Tracker kept and never copied. -/
def twoHandlers : TrackedState (Int → Id Int) :=
  (TrackedState.init.run [.push_back multiplyBy2, .push_back powerOf2]).1

/-- The statement `fed.push_back(f);` whose returned Tracker is not stored: the temporary
Tracker is destroyed at the end of the statement. -/
def TrackedState.push_back_discard {F : Type} (s : TrackedState F) (f : F) : TrackedState F :=
  ⟨Tracker.drop (FederateBase.push_back_tracked s.heap s.fed f).1
      (FederateBase.push_back_tracked s.heap s.fed f).2.2,
    (FederateBase.push_back_tracked s.heap s.fed f).2.1⟩

/-- Address of a control block in a run that made one more allocation, at address `n`, than
the run it is compared with: blocks allocated before keep their address, later ones are one
further. -/
def skipAddress (n i : Nat) : Nat :=
  if i < n then i else i + 1

/-- The same action on Trackers whose addresses are translated by `ρ`. -/
def ClientAction.rename {m : Type → Type} {A R : Type} (ρ : Nat → Nat) :
    ClientAction m A R → ClientAction m A R
  | .copy t => .copy (ρ t)
  | .drop t => .drop (ρ t)
  | c => c

/-- Relates the memory `s1` of a run to the memory `s2` of the same run with one more
registration, whose control block `n` has no owner: the other blocks agree, block `n` is
expired, and apart from entry `n` the two entry sequences agree. -/
def TrackedState.SkipRel {F : Type} (n : Nat) (s1 s2 : TrackedState F) : Prop :=
  n ≤ s1.heap.length
  ∧ s2.heap.length = s1.heap.length + 1
  ∧ (∀ i, s2.heap[skipAddress n i]? = s1.heap[i]?)
  ∧ lock s2.heap n = none
  ∧ s2.fed.functions.vec.filter (fun w => decide (w ≠ n))
      = s1.fed.functions.vec.map (skipAddress n)

/-- One handler registered with its Tracker kept. -/
def oneHandler : TrackedState (Int → Id Int) :=
  (TrackedState.init.run [.push_back multiplyBy2]).1

/-- The action is a `push_back` call. -/
def ClientAction.isPushBack {m : Type → Type} {A R : Type} : ClientAction m A R → Bool
  | .push_back _ => true
  | _ => false

/-- The action is one of the two calls that take entries out of the sequence. -/
def ClientAction.removes {m : Type → Type} {A R : Type} : ClientAction m A R → Bool
  | .clean => true
  | .clear => true
  | _ => false

/-! ## Handler bodies that throw -/

/-- Effect of a handler body that may change state it captured by reference and may throw:
from the state before the call to the returned value or the thrown exception, and the state
after. What a body changed before it threw stays changed. -/
def Eff (S E R : Type) : Type := S → Except E R × S

/-- Sequencing of two effects: an exception thrown by the first leaves the second unexecuted
and propagates. -/
def Eff.bind {S E R T : Type} (x : Eff S E R) (f : R → Eff S E T) : Eff S E T :=
  fun s =>
    match x s with
    | (Except.ok r, s1) => f r s1
    | (Except.error e, s1) => (Except.error e, s1)

instance Eff.instMonad {S E : Type} : Monad (Eff S E) where
  pure r := fun s => (Except.ok r, s)
  bind := Eff.bind

/-- The handlers called one after the other on the same argument, from the state given
first, all return normally: the list holds the returned values in call order, the last
state is the one after the last call. -/
inductive CallsReturn {S E A R : Type} (a : A) : List (A → Eff S E R) → S → List R → S → Prop
  | nil (s : S) : CallsReturn a [] s [] s
  | cons {h : A → Eff S E R} {hs : List (A → Eff S E R)} {s s1 s2 : S} {r : R} {rs : List R} :
      h a s = (Except.ok r, s1) → CallsReturn a hs s1 rs s2 → CallsReturn a (h :: hs) s (r :: rs) s2

/-- The callables `invoke` reaches: every entry of an untracked registry, the entries that
are not expired of a tracked one, in sequence order. -/
def FederateBase.liveHandlers {F : Type} (heap : Heap F) :
    {Tracked : Bool} → FederateBase F Tracked → List F
  | true, fed => fed.functions.vec.filterMap (lock heap)
  | false, fed => fed.functions.vec

/-- A handler that records its call by appending `i` to the call log and returns `i`. -/
def logged (i : Nat) : Unit → Eff (List Nat) String Nat :=
  fun _ log => (Except.ok i, log ++ [i])

/-- A handler that records its call by appending `i` to the call log and then throws. -/
def loggedThrow (i : Nat) (what : String) : Unit → Eff (List Nat) String Nat :=
  fun _ log => (Except.error what, log ++ [i])

/-- An untracked registry of three logging handlers, the second of which throws. -/
def throwingSecond : FederateBase (Unit → Eff (List Nat) String Nat) false :=
  ((FederateBase.init.push_back_untracked (logged 0)).push_back_untracked
    (loggedThrow 1 "boom")).push_back_untracked (logged 2)

/-! ## Asynchronous dispatch: `Federate<R(void), false, ThreadSafe>` -/

/-- `std::future<R>` obtained from `std::async(std::launch::async, task)`: the scheduled
task. -/
structure Future (m : Type → Type) (R : Type) where
  task : Unit → m R

/-- `std::async(std::launch::async, task)`. -/
def async {m : Type → Type} {R : Type} (task : Unit → m R) : Future m R :=
  ⟨task⟩

/-- `future.get()`: waits for the task and hands out what it returned. -/
def Future.get {m : Type → Type} {R : Type} (fut : Future m R) : m R :=
  fut.task ()

namespace FederateRVoid

variable {m : Type → Type} {R : Type}

/-- The loop of `invokeAsyncTracked(std::false_type)` of the `R(void)` specialisation, with
the local `futures` as accumulator; the lambda `[f]()->R { return f(); }` captures a copy of
the entry. -/
def invokeAsyncTracked_false_loop : List (Unit → m R) → List (Future m R) → List (Future m R)
  | [], futures => futures
  | f :: rest, futures => invokeAsyncTracked_false_loop rest (futures ++ [async (fun _ => f ())])

/-- `std::vector<std::future<R>> invokeAsyncTracked(std::false_type)` of the `R(void)`
specialisation. -/
def invokeAsyncTracked_false (fed : FederateBase (Unit → m R) false) : List (Future m R) :=
  invokeAsyncTracked_false_loop fed.functions.vec []

end FederateRVoid

/-! ## A client program around one untracked registry -/

/-- One call of the public interface of an untracked registry. -/
inductive UntrackedAction (m : Type → Type) (A R : Type) : Type
  | push_back (f : A → m R)
  | invoke (args : A)
  | size
  | empty
  | garbageSize
  | clean
  | clear

namespace FederateBase

variable {m : Type → Type} [Monad m] {A R : Type}

/-- Effect of one call on an untracked registry, and what it returns. No shared allocation
exists in untracked mode: the heap handed to the tag dispatchers is the empty one. -/
def stepUntracked (fed : FederateBase (A → m R) false) :
    UntrackedAction m A R → FederateBase (A → m R) false × Returned m R
  | .push_back f => (fed.push_back_untracked f, .nothing)
  | .invoke args => (fed, .results (Federate.invoke [] fed args))
  | .size => (fed, .count fed.size)
  | .empty => (fed, .flag fed.empty)
  | .garbageSize => (fed, .count (garbageSize [] fed))
  | .clean => (clean [] fed, .nothing)
  | .clear => (fed.clear, .nothing)

/-- Runs a sequence of calls on an untracked registry: the final registry and everything
returned on the way. -/
def runUntracked (fed : FederateBase (A → m R) false) :
    List (UntrackedAction m A R) → FederateBase (A → m R) false × List (Returned m R)
  | [] => (fed, [])
  | c :: cs =>
    ((runUntracked (stepUntracked fed c).1 cs).1,
      (stepUntracked fed c).2 :: (runUntracked (stepUntracked fed c).1 cs).2)

end FederateBase

/-! ## Several Trackers for one handler -/

/-- `use_count()` of the control block a weak pointer refers to: the number of Trackers
alive for it. -/
def use_count {F : Type} (heap : Heap F) (w : WeakTracker) : Nat :=
  match heap[w]? with
  | some cb => cb.strong
  | none => 0

/-- Destruction of `j` Trackers of the same control block, one after the other. -/
def Tracker.dropN {F : Type} (heap : Heap F) (t : Tracker) : Nat → Heap F
  | 0 => heap
  | j + 1 => Tracker.dropN (Tracker.drop heap t) t j

/-- Copy construction of `j` further Trackers from a Tracker of the control block. -/
def Tracker.copyN {F : Type} (heap : Heap F) (t : Tracker) : Nat → Heap F
  | 0 => heap
  | j + 1 => Tracker.copyN (Tracker.copy heap t) t j

/-- One handler registered and its Tracker copied twice: three Trackers for the one entry. -/
def threeTrackers : TrackedState (Int → Id Int) :=
  (TrackedState.init.run [.push_back multiplyBy2, .copy 0, .copy 0]).1

/-- A tracked registry whose only entry was registered with the Tracker discarded. -/
def onlyGarbage : TrackedState (Int → Id Int) :=
  TrackedState.init.push_back_discard multiplyBy2

/-- `*t` and `t->`: the callable a shared pointer points to. `none` stands for an access to a
callable that has been destroyed, which does not happen while an owner is alive. -/
def Tracker.deref {F : Type} (heap : Heap F) (t : Tracker) : Option F :=
  match heap[t]? with
  | some cb => if cb.strong = 0 then none else some cb.object
  | none => none

/-! ## Dispatch layer: `Federate<void(Args...), Tracked, ThreadSafe>` -/

namespace FederateVoid

variable {m : Type → Type} [Monad m] {A : Type}

/-- The loop of `void invokeTracked(Args... args, std::true_type)`. -/
def invokeTracked_true_loop (heap : Heap (A → m Unit)) (args : A) : List WeakTracker → m Unit
  | [] => pure ()
  | f :: rest =>
    match lock heap f with
    | some func => do
      func args
      invokeTracked_true_loop heap args rest
    | none => invokeTracked_true_loop heap args rest

/-- `void invokeTracked(Args... args, std::true_type)`. -/
def invokeTracked_true (heap : Heap (A → m Unit)) (fed : FederateBase (A → m Unit) true)
    (args : A) : m Unit :=
  invokeTracked_true_loop heap args fed.functions.vec

/-- The loop of `void invokeTracked(Args... args, std::false_type)`. -/
def invokeTracked_false_loop (args : A) : List (A → m Unit) → m Unit
  | [] => pure ()
  | f :: rest => do
    f args
    invokeTracked_false_loop args rest

/-- `void invokeTracked(Args... args, std::false_type)`. -/
def invokeTracked_false (fed : FederateBase (A → m Unit) false) (args : A) : m Unit :=
  invokeTracked_false_loop args fed.functions.vec

/-- `void invoke(Args... args)`: tag dispatch on `Tracked`. -/
def invoke (heap : Heap (A → m Unit)) :
    {Tracked : Bool} → FederateBase (A → m Unit) Tracked → A → m Unit
  | true, fed, args => invokeTracked_true heap fed args
  | false, fed, args => invokeTracked_false fed args

end FederateVoid

/-! ## Dispatch layer: the `Federate<void(void), Tracked, ThreadSafe>` specialisations -/

namespace FederateVoidVoid

variable {m : Type → Type} [Monad m]

/-- The loop of `void invokeTrackedFalse()`, written out alike in
`Federate<void(void), false, false>` and `Federate<void(void), false, true>`. -/
def invokeTrackedFalse_loop : List (Unit → m Unit) → m Unit
  | [] => pure ()
  | f :: rest => do
    f ()
    invokeTrackedFalse_loop rest

/-- `void invokeTrackedFalse()`. -/
def invokeTrackedFalse (fed : FederateBase (Unit → m Unit) false) : m Unit :=
  invokeTrackedFalse_loop fed.functions.vec

/-- The loop of `void invokeTrackedTrue()`, written out alike in
`Federate<void(void), true, false>` and `Federate<void(void), true, true>`. -/
def invokeTrackedTrue_loop (heap : Heap (Unit → m Unit)) : List WeakTracker → m Unit
  | [] => pure ()
  | f :: rest =>
    match lock heap f with
    | some func => do
      func ()
      invokeTrackedTrue_loop heap rest
    | none => invokeTrackedTrue_loop heap rest

/-- `void invokeTrackedTrue()`. -/
def invokeTrackedTrue (heap : Heap (Unit → m Unit)) (fed : FederateBase (Unit → m Unit) true) :
    m Unit :=
  invokeTrackedTrue_loop heap fed.functions.vec

end FederateVoidVoid

/-- A handler body that cannot throw: it changes the state it captured by reference and
returns. -/
def Eff.act {S E : Type} (t : S → S) : Eff S E Unit :=
  fun s => (Except.ok (), t s)

/-- The registry of `TEST(Federate, VoidVoid)` after its three `push_back` calls, the
captured `int x` being the state: `x = x * 2`, `x = 2^x`, `x = x^2`. -/
def testVoidVoid : FederateBase (Unit → Eff Int String Unit) false :=
  ((FederateBase.init.push_back_untracked (fun _ => Eff.act multiplyBy2)).push_back_untracked
    (fun _ => Eff.act powerOf2)).push_back_untracked (fun _ => Eff.act square)

/-- The registry of `TEST(Federate, VoidInt)` after its three `push_back` calls, the
captured `int y` being the state: `y = x * 2`, `y = 2^x`, `y = x^2` for the argument `x`. -/
def testVoidInt : FederateBase (Int → Eff Int String Unit) false :=
  ((FederateBase.init.push_back_untracked (fun x => Eff.act (fun _ => multiplyBy2 x))).push_back_untracked
    (fun x => Eff.act (fun _ => powerOf2 x))).push_back_untracked (fun x => Eff.act (fun _ => square x))

/-! ## Asynchronous dispatch of tracked handlers: `Federate<void(Args...), true, ThreadSafe>` -/

/-- The closure `[func, args...]() { return func->operator()(args...); }` handed to
`std::async`: the captured shared pointer, one more owner of its control block for as long as
the closure exists, and the captured copy of the arguments. The `std::future<void>` of the
unit reports the completion of this closure. -/
structure TrackedTask (A : Type) where
  func : Tracker
  args : A

/-- The body of the closure, run by the scheduled unit on the memory as it is at that time:
`func->operator()(args...)`. -/
def TrackedTask.body {m : Type → Type} {A R : Type} (heap : Heap (A → m R))
    (task : TrackedTask A) : Option (m R) :=
  (Tracker.deref heap task.func).map (fun f => f task.args)

/-- The unit has finished and its closure is destroyed: the captured shared pointer is
released. -/
def TrackedTask.finish {F A : Type} (heap : Heap F) (task : TrackedTask A) : Heap F :=
  Tracker.drop heap task.func

namespace FederateVoid

variable {m : Type → Type} {A : Type}

/-- The loop of `invokeAsyncTracked(Args... args, std::true_type)` with the local `futures`
as accumulator: an entry found live is scheduled, and the copy of `func` captured by the
closure is one more owner of the control block; the loop's own `func` is released at the end
of the iteration. -/
def invokeAsyncTracked_true_loop (args : A) :
    Heap (A → m Unit) → List WeakTracker → List (TrackedTask A) →
      Heap (A → m Unit) × List (TrackedTask A)
  | heap, [], futures => (heap, futures)
  | heap, f :: rest, futures =>
    match lock heap f with
    | some _ =>
      invokeAsyncTracked_true_loop args (Tracker.copy heap f) rest (futures ++ [TrackedTask.mk f args])
    | none => invokeAsyncTracked_true_loop args heap rest futures

/-- `std::vector<std::future<void>> invokeAsyncTracked(Args... args, std::true_type)`: the
memory after scheduling and the scheduled units, one future each. -/
def invokeAsyncTracked_true (heap : Heap (A → m Unit)) (fed : FederateBase (A → m Unit) true)
    (args : A) : Heap (A → m Unit) × List (TrackedTask A) :=
  invokeAsyncTracked_true_loop args heap fed.functions.vec []

end FederateVoid

namespace FederateVoidVoid

variable {m : Type → Type}

/-- The loop of `invokeAsyncTrackedTrue()` of `Federate<void(void), true, false>` and
`Federate<void(void), true, true>`; the closure is `[func]() { func->operator()(); }`. -/
def invokeAsyncTrackedTrue_loop :
    Heap (Unit → m Unit) → List WeakTracker → List (TrackedTask Unit) →
      Heap (Unit → m Unit) × List (TrackedTask Unit)
  | heap, [], futures => (heap, futures)
  | heap, f :: rest, futures =>
    match lock heap f with
    | some _ =>
      invokeAsyncTrackedTrue_loop (Tracker.copy heap f) rest (futures ++ [TrackedTask.mk f ()])
    | none => invokeAsyncTrackedTrue_loop heap rest futures

/-- `std::vector<std::future<void>> invokeAsyncTrackedTrue()`. -/
def invokeAsyncTrackedTrue (heap : Heap (Unit → m Unit))
    (fed : FederateBase (Unit → m Unit) true) : Heap (Unit → m Unit) × List (TrackedTask Unit) :=
  invokeAsyncTrackedTrue_loop heap fed.functions.vec []

end FederateVoidVoid

/-- A handler of `TEST(Federate, SlotDemo)` in outline: it appends its own number and then
its argument to the output. -/
def slotHandler (i : Nat) : Nat → Eff (List Nat) String Unit :=
  fun x => Eff.act (fun out => out ++ [i, x])

/-- Two slot handlers registered, as in `TEST(Federate, SlotDemo)`, each Tracker kept. -/
def slotDemo : TrackedState (Nat → Eff (List Nat) String Unit) :=
  (TrackedState.init.run [.push_back (slotHandler 1), .push_back (slotHandler 2)]).1

/-- The registry of `TEST(Federate, IntInt_Tracked)` after its three `push_back` calls, all
three Trackers stored. -/
def threeHandlers : TrackedState (Int → Id Int) :=
  (TrackedState.init.run [.push_back multiplyBy2, .push_back powerOf2, .push_back square]).1

/-! ## Tracked and untracked registries side by side -/

/-- The same call made on a tracked registry, by a client that stores every Tracker it is
handed. -/
def UntrackedAction.toTracked {m : Type → Type} {A R : Type} :
    UntrackedAction m A R → ClientAction m A R
  | .push_back f => .push_back f
  | .invoke args => .invoke args
  | .size => .size
  | .empty => .empty
  | .garbageSize => .garbageSize
  | .clean => .clean
  | .clear => .clear

/-- What a call returned, apart from the Tracker that the tracked `push_back` hands out where
the untracked one returns `void`. -/
def Returned.value {m : Type → Type} {R : Type} : Returned m R → Returned m R
  | .tracker _ => .nothing
  | r => r

/-- A tracked memory all of whose entries are live, side by side with an untracked registry
that holds the same callables in the same order. -/
def TrackedState.Mirrors {F : Type} (s : TrackedState F) (fed : FederateBase F false) : Prop :=
  s.InBounds ∧ (∀ w ∈ s.fed.functions.vec, lock s.heap w ≠ none) ∧ s.live = fed.functions.vec

/-! ## The guard: `MutexMember<ThreadSafe>`

From here on the member `lock` of `FederateBase` is part of the state. The executions
are still those of one caller, whose handlers do not call back into the registry: what a
call does between taking the guard and giving it back is what the definitions above
describe. -/

/-- What `MutexMember<ThreadSafe>` holds: nothing in the primary template, the
`std::mutex access` in the `MutexMember<true>` specialisation, of which the embedding keeps
whether it is locked. -/
abbrev MutexState : Bool → Type
  | false => Unit
  | true => Bool

/-- `template<bool> struct MutexMember`. -/
structure MutexMember (ThreadSafe : Bool) where
  access : MutexState ThreadSafe

namespace MutexMember

/-- A guard that nobody holds. -/
def unlocked : {ThreadSafe : Bool} → MutexMember ThreadSafe
  | false => ⟨()⟩
  | true => ⟨false⟩

/-- `acquire()`: `return 0` in the primary template; in `MutexMember<true>` the construction
of a `std::lock_guard`, which locks `access`. Locking a `std::mutex` that the calling thread
holds already does not return: `none`. -/
def acquire : {ThreadSafe : Bool} → MutexMember ThreadSafe → Option (MutexMember ThreadSafe)
  | false, mu => some mu
  | true, mu =>
    match mu.access with
    | true => none
    | false => some ⟨true⟩

/-- The end of the scope of `scopedLock`: the destructor of the `std::lock_guard` unlocks
`access`; the `int` of the primary template has nothing to give back. -/
def release : {ThreadSafe : Bool} → MutexMember ThreadSafe → MutexMember ThreadSafe
  | false, mu => mu
  | true, _ => ⟨false⟩

end MutexMember

/-- `FederateBase<FederateFunction, Tracked, ThreadSafe>` with both of its members:
`functions`, inside `base`, and `lock`. -/
structure GuardedFederateBase (F : Type) (Tracked ThreadSafe : Bool) where
  base : FederateBase F Tracked
  lock : MutexMember ThreadSafe

namespace GuardedFederateBase

variable {F : Type} {Tracked ThreadSafe : Bool}

/-- `void push_back(FederateFunction f)` with its guard. -/
def push_back_untracked (g : GuardedFederateBase F false ThreadSafe) (f : F) :
    Option (GuardedFederateBase F false ThreadSafe) :=
  match g.lock.acquire with
  | some held => some ⟨g.base.push_back_untracked f, held.release⟩
  | none => none

/-- `Tracker push_back(FederateFunction f)` with its guard, which is taken after
`make_shared`. -/
def push_back_tracked (heap : Heap F) (g : GuardedFederateBase F true ThreadSafe) (f : F) :
    Option (Heap F × GuardedFederateBase F true ThreadSafe × Tracker) :=
  let shared := make_shared heap f
  match g.lock.acquire with
  | some held =>
    some (shared.1, ⟨⟨⟨g.base.functions.vec ++ [shared.2]⟩⟩, held.release⟩, shared.2)
  | none => none

/-- `size_t size() const` with its guard; `access` is `mutable`. -/
def size (g : GuardedFederateBase F Tracked ThreadSafe) :
    Option (GuardedFederateBase F Tracked ThreadSafe × Nat) :=
  match g.lock.acquire with
  | some held => some (⟨g.base, held.release⟩, g.base.size)
  | none => none

/-- `void clear()` with its guard. -/
def clear (g : GuardedFederateBase F Tracked ThreadSafe) :
    Option (GuardedFederateBase F Tracked ThreadSafe) :=
  match g.lock.acquire with
  | some held => some ⟨g.base.clear, held.release⟩
  | none => none

/-- `bool empty() const` with its guard. -/
def empty (g : GuardedFederateBase F Tracked ThreadSafe) :
    Option (GuardedFederateBase F Tracked ThreadSafe × Bool) :=
  match g.lock.acquire with
  | some held => some (⟨g.base, held.release⟩, g.base.empty)
  | none => none

/-- `size_t garbageSize() const`: `garbageSizeTracked(std::true_type)` takes the guard,
`garbageSizeTracked(std::false_type)` returns 0 without it. -/
def garbageSize (heap : Heap F) :
    {Tracked : Bool} → GuardedFederateBase F Tracked ThreadSafe →
      Option (GuardedFederateBase F Tracked ThreadSafe × Nat)
  | true, g =>
    match g.lock.acquire with
    | some held => some (⟨g.base, held.release⟩, FederateBase.garbageSizeTracked_true heap g.base)
    | none => none
  | false, g => some (g, FederateBase.garbageSizeTracked_false g.base)

/-- `void clean()`: `cleanTracked(std::true_type)` takes the guard,
`cleanTracked(std::false_type)` is empty. -/
def clean (heap : Heap F) :
    {Tracked : Bool} → GuardedFederateBase F Tracked ThreadSafe →
      Option (GuardedFederateBase F Tracked ThreadSafe)
  | true, g =>
    match g.lock.acquire with
    | some held => some ⟨FederateBase.cleanTracked_true heap g.base, held.release⟩
    | none => none
  | false, g => some ⟨FederateBase.cleanTracked_false g.base, g.lock⟩

end GuardedFederateBase

/-- `std::vector<R> invoke(Args... args)` of `Federate<R(Args...), Tracked, ThreadSafe>` with
its guard, which is held until every handler has returned. -/
def GuardedFederate.invoke {m : Type → Type} [Monad m] {A R : Type} {Tracked ThreadSafe : Bool}
    (heap : Heap (A → m R)) (g : GuardedFederateBase (A → m R) Tracked ThreadSafe) (args : A) :
    Option (GuardedFederateBase (A → m R) Tracked ThreadSafe × m (List R)) :=
  match g.lock.acquire with
  | some held => some (⟨g.base, held.release⟩, Federate.invoke heap g.base args)
  | none => none

/-- `void invoke(Args... args)` of `Federate<void(Args...), Tracked, ThreadSafe>` with its
guard. -/
def GuardedFederateVoid.invoke {m : Type → Type} [Monad m] {A : Type} {Tracked ThreadSafe : Bool}
    (heap : Heap (A → m Unit)) (g : GuardedFederateBase (A → m Unit) Tracked ThreadSafe)
    (args : A) : Option (GuardedFederateBase (A → m Unit) Tracked ThreadSafe × m Unit) :=
  match g.lock.acquire with
  | some held => some (⟨g.base, held.release⟩, FederateVoid.invoke heap g.base args)
  | none => none

/-- `void invoke()` of the four classes `Federate<void(void), Tracked, ThreadSafe>`, each
with its guard: the untracked two call `invokeTrackedFalse()`, the tracked two
`invokeTrackedTrue()`. -/
def GuardedFederateVoidVoid.invoke {m : Type → Type} [Monad m] {ThreadSafe : Bool}
    (heap : Heap (Unit → m Unit)) :
    {Tracked : Bool} → GuardedFederateBase (Unit → m Unit) Tracked ThreadSafe →
      Option (GuardedFederateBase (Unit → m Unit) Tracked ThreadSafe × m Unit)
  | true, g =>
    match g.lock.acquire with
    | some held => some (⟨g.base, held.release⟩, FederateVoidVoid.invokeTrackedTrue heap g.base)
    | none => none
  | false, g =>
    match g.lock.acquire with
    | some held => some (⟨g.base, held.release⟩, FederateVoidVoid.invokeTrackedFalse g.base)
    | none => none

/-- The memory of a client of a tracked registry, the guard included. -/
structure GuardedTrackedState (F : Type) (ThreadSafe : Bool) where
  heap : Heap F
  fed : GuardedFederateBase F true ThreadSafe

namespace GuardedTrackedState

variable {m : Type → Type} [Monad m] {A R : Type} {ThreadSafe : Bool}

/-- The memory with a guard that nobody holds. -/
def guard (ThreadSafe : Bool) {F : Type} (s : TrackedState F) : GuardedTrackedState F ThreadSafe :=
  ⟨s.heap, ⟨s.fed, MutexMember.unlocked⟩⟩

/-- Effect of one action of the client, and what it returns; `none` when the call does not
return. Copying and dropping a Tracker does not involve the registry. -/
def step (s : GuardedTrackedState (A → m R) ThreadSafe) :
    ClientAction m A R → Option (GuardedTrackedState (A → m R) ThreadSafe × Returned m R)
  | .push_back f =>
    (GuardedFederateBase.push_back_tracked s.heap s.fed f).map
      (fun r => (⟨r.1, r.2.1⟩, .tracker r.2.2))
  | .copy t => some (⟨Tracker.copy s.heap t, s.fed⟩, .nothing)
  | .drop t => some (⟨Tracker.drop s.heap t, s.fed⟩, .nothing)
  | .invoke args =>
    (GuardedFederate.invoke s.heap s.fed args).map (fun r => (⟨s.heap, r.1⟩, .results r.2))
  | .size => (GuardedFederateBase.size s.fed).map (fun r => (⟨s.heap, r.1⟩, .count r.2))
  | .empty => (GuardedFederateBase.empty s.fed).map (fun r => (⟨s.heap, r.1⟩, .flag r.2))
  | .garbageSize =>
    (GuardedFederateBase.garbageSize s.heap s.fed).map (fun r => (⟨s.heap, r.1⟩, .count r.2))
  | .clean => (GuardedFederateBase.clean s.heap s.fed).map (fun r => (⟨s.heap, r⟩, .nothing))
  | .clear => (GuardedFederateBase.clear s.fed).map (fun r => (⟨s.heap, r⟩, .nothing))

/-- Runs a sequence of actions; `none` when one of the calls does not return. -/
def run (s : GuardedTrackedState (A → m R) ThreadSafe) :
    List (ClientAction m A R) →
      Option (GuardedTrackedState (A → m R) ThreadSafe × List (Returned m R))
  | [] => some (s, [])
  | c :: cs =>
    match step s c with
    | some r =>
      match run r.1 cs with
      | some q => some (q.1, r.2 :: q.2)
      | none => none
    | none => none

end GuardedTrackedState

namespace GuardedFederateBase

variable {m : Type → Type} [Monad m] {A R : Type} {ThreadSafe : Bool}

/-- An untracked registry with a guard that nobody holds. -/
def guard (ThreadSafe : Bool) {F : Type} {Tracked : Bool} (fed : FederateBase F Tracked) :
    GuardedFederateBase F Tracked ThreadSafe :=
  ⟨fed, MutexMember.unlocked⟩

/-- Effect of one call on an untracked registry with its guard, and what it returns. -/
def stepUntracked (g : GuardedFederateBase (A → m R) false ThreadSafe) :
    UntrackedAction m A R →
      Option (GuardedFederateBase (A → m R) false ThreadSafe × Returned m R)
  | .push_back f => (push_back_untracked g f).map (fun r => (r, .nothing))
  | .invoke args => (GuardedFederate.invoke [] g args).map (fun r => (r.1, .results r.2))
  | .size => (size g).map (fun r => (r.1, .count r.2))
  | .empty => (empty g).map (fun r => (r.1, .flag r.2))
  | .garbageSize => (garbageSize [] g).map (fun r => (r.1, .count r.2))
  | .clean => (clean [] g).map (fun r => (r, .nothing))
  | .clear => (clear g).map (fun r => (r, .nothing))

/-- Runs a sequence of calls on an untracked registry with its guard. -/
def runUntracked (g : GuardedFederateBase (A → m R) false ThreadSafe) :
    List (UntrackedAction m A R) →
      Option (GuardedFederateBase (A → m R) false ThreadSafe × List (Returned m R))
  | [] => some (g, [])
  | c :: cs =>
    match stepUntracked g c with
    | some r =>
      match runUntracked r.1 cs with
      | some q => some (q.1, r.2 :: q.2)
      | none => none
    | none => none

end GuardedFederateBase

/-! ## Handlers that act on Trackers

The loops above resolve every entry against the heap as it is when `invoke` is called,
which is what happens as long as no handler body copies or destroys a Tracker. Here a
handler body may do so, and every iteration calls `f.lock()` on the heap as the bodies run
before it have left it. -/

/-- What a handler body does to a Tracker it reaches, for instance through a reference it
captured: it copies one or destroys one. -/
inductive TrackerOp : Type
  | copy (t : Tracker)
  | drop (t : Tracker)

/-- Effect of one such step on the heap. -/
def TrackerOp.apply {F : Type} (heap : Heap F) : TrackerOp → Heap F
  | .copy t => Tracker.copy heap t
  | .drop t => Tracker.drop heap t

/-- Effect of the steps of one handler body, in the order the body takes them. -/
def TrackerOp.applyAll {F : Type} (heap : Heap F) (ops : List TrackerOp) : Heap F :=
  ops.foldl TrackerOp.apply heap

/-- A handler whose body returns a value and, on the way, acts on Trackers. -/
abbrev ActingHandler (A R : Type) : Type := A → R × List TrackerOp

namespace Federate

variable {A R : Type}

/-- The loop of `invokeTracked(args..., std::true_type)` for handlers that act on Trackers.
`auto func = f.lock()` is resolved on the heap of this iteration and is one more owner until
the end of the iteration; the body of the handler runs in between. -/
def invokeTracked_true_acting_loop (args : A) :
    Heap (ActingHandler A R) → List WeakTracker → List R → Heap (ActingHandler A R) × List R
  | heap, [], results => (heap, results)
  | heap, f :: rest, results =>
    match lock heap f with
    | some func =>
      invokeTracked_true_acting_loop args
        (Tracker.drop (TrackerOp.applyAll (Tracker.copy heap f) (func args).2) f) rest
        (results ++ [(func args).1])
    | none => invokeTracked_true_acting_loop args heap rest results

/-- `std::vector<R> invokeTracked(Args... args, std::true_type)` for handlers that act on
Trackers: the heap the call leaves and the returned vector. -/
def invokeTracked_true_acting (heap : Heap (ActingHandler A R))
    (fed : FederateBase (ActingHandler A R) true) (args : A) : Heap (ActingHandler A R) × List R :=
  invokeTracked_true_acting_loop args heap fed.functions.vec []

end Federate

/-- The handler seen without what it does to Trackers: the value it returns. -/
def ActingHandler.value {A R : Type} (f : ActingHandler A R) : A → Id R :=
  fun a => (f a).1

/-- The heap with every handler seen without what it does to Trackers. -/
def ActingHandler.values {A R : Type} (heap : Heap (ActingHandler A R)) : Heap (A → Id R) :=
  heap.map (fun cb => ControlBlock.mk cb.object.value cb.strong)

/-- The registry over the heap of `ActingHandler.values`: the same weak references. -/
def ActingHandler.registry {A R : Type} (fed : FederateBase (ActingHandler A R) true) :
    FederateBase (A → Id R) true :=
  ⟨⟨fed.functions.vec⟩⟩

/-- Two handlers registered with their Trackers kept, the first of which, x*2, destroys the
Tracker of the second, 2^x, while it runs: its body resets the variable, captured by
reference, that the client assigns the second Tracker to. -/
def dropsNext : TrackedState (ActingHandler Int Int) :=
  ⟨(FederateBase.push_back_tracked
      (FederateBase.push_back_tracked [] FederateBase.init
        (fun x => (multiplyBy2 x, [TrackerOp.drop 1]))).1
      (FederateBase.push_back_tracked [] FederateBase.init
        (fun x => (multiplyBy2 x, [TrackerOp.drop 1]))).2.1
      (fun x => (powerOf2 x, []))).1,
    (FederateBase.push_back_tracked
      (FederateBase.push_back_tracked [] FederateBase.init
        (fun x => (multiplyBy2 x, [TrackerOp.drop 1]))).1
      (FederateBase.push_back_tracked [] FederateBase.init
        (fun x => (multiplyBy2 x, [TrackerOp.drop 1]))).2.1
      (fun x => (powerOf2 x, []))).2.1⟩

/-- Two handlers registered with their Trackers kept, none of which acts on a Tracker; the
Tracker of the first has been dropped since. -/
def quietPair : TrackedState (ActingHandler Int Int) :=
  ⟨Tracker.drop
      (FederateBase.push_back_tracked
        (FederateBase.push_back_tracked [] FederateBase.init (fun x => (multiplyBy2 x, []))).1
        (FederateBase.push_back_tracked [] FederateBase.init (fun x => (multiplyBy2 x, []))).2.1
        (fun x => (powerOf2 x, []))).1 0,
    (FederateBase.push_back_tracked
      (FederateBase.push_back_tracked [] FederateBase.init (fun x => (multiplyBy2 x, []))).1
      (FederateBase.push_back_tracked [] FederateBase.init (fun x => (multiplyBy2 x, []))).2.1
      (fun x => (powerOf2 x, []))).2.1⟩

/-! ## Handler bodies under the guard

A handler body may call back into the registry it is registered in. What such a call finds
is the guard as it is while the body runs. The executions are still those of one caller. -/

/-- Effect of a handler body that may call back into its registry: from the guard of the
registry as it is while the body runs to the returned value; `none` when the body does not
return. A call back that returns has given the guard back: the body leaves it as found. -/
def UnderGuard (ThreadSafe : Bool) (R : Type) : Type := MutexMember ThreadSafe → Option R

/-- Sequencing of two bodies: when the first does not return, the second is not run. -/
def UnderGuard.bind {ThreadSafe : Bool} {R T : Type} (x : UnderGuard ThreadSafe R)
    (f : R → UnderGuard ThreadSafe T) : UnderGuard ThreadSafe T :=
  fun mu =>
    match x mu with
    | some r => f r mu
    | none => none

instance UnderGuard.instMonad {ThreadSafe : Bool} : Monad (UnderGuard ThreadSafe) where
  pure r := fun _ => some r
  bind := UnderGuard.bind

/-- The `MutexMember<true>` whose `access` is locked. -/
def MutexMember.held : MutexMember true :=
  ⟨true⟩

theorem invokeResults_cons {m : Type → Type} {R : Type} (r : Returned m R)
    (rs : List (Returned m R)) :
    invokeResults (r :: rs) = invokeResults [r] ++ invokeResults rs := by
  cases r <;> rfl

section Lemmas

variable {m : Type → Type} [Monad m] {A R F : Type}

theorem lock_append_of_lt (heap extra : Heap F) (w : WeakTracker) (h : w < heap.length) :
    lock (heap ++ extra) w = lock heap w := by
  simp [lock, List.getElem?_append_left h]

theorem lock_append_length (heap : Heap F) (f : F) :
    lock (heap ++ [ControlBlock.mk f 1]) heap.length = some f := by
  simp [lock]

/-- The tracked loop is the untracked loop over the callables of the live entries. -/
theorem Federate.invokeTracked_true_loop_eq (heap : Heap (A → m R)) (args : A)
    (vec : List WeakTracker) (results : List R) :
    Federate.invokeTracked_true_loop heap args vec results
      = Federate.invokeTracked_false_loop args (vec.filterMap (lock heap)) results := by
  induction vec generalizing results with
  | nil => rfl
  | cons f rest ih =>
    cases h : lock heap f with
    | none => simp [Federate.invokeTracked_true_loop, h, ih]
    | some func =>
      simp [Federate.invokeTracked_true_loop, Federate.invokeTracked_false_loop, h, ih]

/-- With pure handlers the untracked loop appends one result per entry, in order. -/
theorem Federate.invokeTracked_false_loop_pure (args : A) (vec : List (A → Id R))
    (results : List R) :
    Id.run (Federate.invokeTracked_false_loop args vec results)
      = results ++ vec.map (fun f => Id.run (f args)) := by
  induction vec generalizing results with
  | nil => simp [Federate.invokeTracked_false_loop, Id.run]
  | cons f rest ih =>
    simp only [Federate.invokeTracked_false_loop, Id.run, Id.bind_eq] at ih ⊢
    rw [ih]
    simp

theorem Federate.invokeTracked_true_pure (heap : Heap (A → Id R))
    (fed : FederateBase (A → Id R) true) (args : A) :
    Id.run (Federate.invokeTracked_true heap fed args)
      = (fed.functions.vec.filterMap (lock heap)).map (fun f => Id.run (f args)) := by
  simp [Federate.invokeTracked_true, Federate.invokeTracked_true_loop_eq,
    Federate.invokeTracked_false_loop_pure]

theorem foldl_push_back_untracked_vec (fed : FederateBase F false) (hs : List F) :
    (hs.foldl FederateBase.push_back_untracked fed).functions.vec = fed.functions.vec ++ hs := by
  induction hs generalizing fed with
  | nil => simp
  | cons h rest ih => simp [ih, FederateBase.push_back_untracked]

theorem TrackedState.run_nil (s : TrackedState (A → m R)) : s.run [] = (s, []) := rfl

theorem TrackedState.run_cons (s : TrackedState (A → m R)) (c : ClientAction m A R)
    (cs : List (ClientAction m A R)) :
    s.run (c :: cs) = (((s.step c).1.run cs).1, (s.step c).2 :: ((s.step c).1.run cs).2) := rfl

theorem TrackedState.step_push_back_heap (s : TrackedState (A → m R)) (f : A → m R) :
    (s.step (.push_back f)).1.heap = s.heap ++ [ControlBlock.mk f 1] := rfl

theorem TrackedState.step_push_back_vec (s : TrackedState (A → m R)) (f : A → m R) :
    (s.step (.push_back f)).1.fed.functions.vec = s.fed.functions.vec ++ [s.heap.length] := rfl

theorem TrackedState.live_push_back (s : TrackedState (A → m R)) (hs : s.InBounds)
    (f : A → m R) : (s.step (.push_back f)).1.live = s.live ++ [f] := by
  unfold TrackedState.live
  rw [TrackedState.step_push_back_heap, TrackedState.step_push_back_vec, List.filterMap_append]
  congr 1
  · apply List.filterMap_congr
    intro w hw
    exact lock_append_of_lt _ _ _ (hs w hw)
  · simp [lock_append_length]

theorem TrackedState.inBounds_push_back (s : TrackedState (A → m R)) (hs : s.InBounds)
    (f : A → m R) : (s.step (.push_back f)).1.InBounds := by
  intro w hw
  rw [TrackedState.step_push_back_vec] at hw
  rw [TrackedState.step_push_back_heap]
  simp only [List.mem_append, List.mem_singleton] at hw
  simp only [List.length_append, List.length_singleton]
  rcases hw with hw | hw
  · exact Nat.lt_succ_of_lt (hs w hw)
  · exact hw ▸ Nat.lt_succ_self _

theorem TrackedState.live_run_push_back (s : TrackedState (A → m R)) (hs : s.InBounds)
    (fs : List (A → m R)) : (s.run (fs.map ClientAction.push_back)).1.live = s.live ++ fs := by
  induction fs generalizing s with
  | nil => simp [TrackedState.run_nil]
  | cons f rest ih =>
    simp only [List.map_cons, TrackedState.run_cons]
    rw [ih _ (s.inBounds_push_back hs f), s.live_push_back hs f]
    simp

theorem TrackedState.inBounds_init : (TrackedState.init : TrackedState F).InBounds := by
  intro w hw
  simp [TrackedState.init, FederateBase.init] at hw

theorem FederateBase.cleanTracked_true_vec (heap : Heap F) (fed : FederateBase F true) :
    (FederateBase.cleanTracked_true heap fed).functions.vec
      = fed.functions.vec.filter (fun w => !FederateBase.expired heap w) := by
  simp [FederateBase.cleanTracked_true, remove_if, erase_to_end]

theorem countP_expired_filter_live (heap : Heap F) (vec : List WeakTracker) :
    (vec.filter (fun w => !FederateBase.expired heap w)).countP (FederateBase.expired heap) = 0 := by
  rw [List.countP_eq_zero]
  intro w hw
  simp only [List.mem_filter] at hw
  simpa using hw.2

theorem length_filter_live (heap : Heap F) (vec : List WeakTracker) :
    (vec.filter (fun w => !FederateBase.expired heap w)).length
      = vec.length - vec.countP (FederateBase.expired heap) := by
  have h := List.length_eq_countP_add_countP (FederateBase.expired heap) vec
  rw [← List.countP_eq_length_filter]
  have h2 : List.countP (fun a => decide ¬FederateBase.expired heap a = true) vec
      = List.countP (fun w => !FederateBase.expired heap w) vec := by
    congr 1
    funext w
    cases FederateBase.expired heap w <;> rfl
  omega

theorem TrackedState.size_step (s : TrackedState (A → m R)) (c : ClientAction m A R)
    (hc : c.removes = false) :
    (s.step c).1.fed.size = s.fed.size + (if c.isPushBack then 1 else 0) := by
  cases c <;> simp_all [TrackedState.step, ClientAction.removes, ClientAction.isPushBack,
    FederateBase.size, FederateBase.push_back_tracked]

theorem TrackedState.size_run (s : TrackedState (A → m R)) (acts : List (ClientAction m A R))
    (h : ∀ c ∈ acts, c.removes = false) :
    (s.run acts).1.fed.size = s.fed.size + acts.countP (fun c => c.isPushBack) := by
  induction acts generalizing s with
  | nil => simp [TrackedState.run_nil]
  | cons c cs ih =>
    rw [TrackedState.run_cons]
    simp only
    rw [ih _ (fun d hd => h d (List.mem_cons_of_mem _ hd)),
      TrackedState.size_step s c (h c (List.mem_cons_self _ _)), List.countP_cons]
    omega

theorem lock_drop_of_ne (heap : Heap F) (t w : Nat) (h : t ≠ w) :
    lock (Tracker.drop heap t) w = lock heap w := by
  simp [lock, Tracker.drop, List.getElem?_modify_ne _ _ h]

theorem lock_of_strong_pos (heap : Heap F) (t : Nat) (cb : ControlBlock F)
    (hcb : heap[t]? = some cb) (hpos : cb.strong ≠ 0) : lock heap t = some cb.object := by
  simp [lock, hcb, hpos]

theorem skipAddress_ne (n i : Nat) : skipAddress n i ≠ n := by
  unfold skipAddress
  split <;> omega

theorem skipAddress_inj (n i j : Nat) : skipAddress n i = skipAddress n j ↔ i = j := by
  unfold skipAddress
  split <;> split <;> omega

theorem filterMap_filter_of_none {α β : Type} (f : α → Option β) (p : α → Bool) (l : List α)
    (h : ∀ x ∈ l, p x = false → f x = none) : l.filterMap f = (l.filter p).filterMap f := by
  induction l with
  | nil => rfl
  | cons x rest ih =>
    have ih2 := ih (fun y hy => h y (List.mem_cons_of_mem _ hy))
    cases hp : p x with
    | true => simp [List.filter_cons, hp, List.filterMap_cons, ih2]
    | false =>
      simp [List.filter_cons, hp, List.filterMap_cons, h x (List.mem_cons_self _ _) hp, ih2]

theorem TrackedState.SkipRel.lock_skip {n : Nat} {s1 s2 : TrackedState F}
    (h : TrackedState.SkipRel n s1 s2) (i : Nat) : lock s2.heap (skipAddress n i) = lock s1.heap i := by
  unfold lock
  rw [h.2.2.1 i]

theorem TrackedState.SkipRel.live_eq {n : Nat} {s1 s2 : TrackedState F}
    (h : TrackedState.SkipRel n s1 s2) : s2.live = s1.live := by
  unfold TrackedState.live
  rw [filterMap_filter_of_none (lock s2.heap) (fun w => decide (w ≠ n)), h.2.2.2.2,
    List.filterMap_map]
  · apply List.filterMap_congr
    intro i _
    exact h.lock_skip i
  · intro x _ hx
    have : x = n := by simpa using hx
    rw [this]
    exact h.2.2.2.1

theorem TrackedState.SkipRel.modify {n : Nat} {s1 s2 : TrackedState F}
    (h : TrackedState.SkipRel n s1 s2) (g : ControlBlock F → ControlBlock F) (t : Nat) :
    TrackedState.SkipRel n ⟨s1.heap.modify g t, s1.fed⟩
      ⟨s2.heap.modify g (skipAddress n t), s2.fed⟩ := by
  obtain ⟨h1, h2, h3, h4, h5⟩ := h
  refine ⟨by simpa using h1, by simpa using h2, ?_, ?_, h5⟩
  · intro i
    show (List.modify g (skipAddress n t) s2.heap)[skipAddress n i]? = (List.modify g t s1.heap)[i]?
    rw [List.getElem?_modify, List.getElem?_modify, h3 i]
    by_cases hti : t = i
    · simp [hti]
    · have : skipAddress n t ≠ skipAddress n i := fun e => hti ((skipAddress_inj n t i).1 e)
      simp [hti, this]
  · show lock (List.modify g (skipAddress n t) s2.heap) n = none
    unfold lock at h4 ⊢
    rw [List.getElem?_modify_ne _ _ (skipAddress_ne n t)]
    exact h4

theorem TrackedState.SkipRel.push_back {n : Nat} {s1 s2 : TrackedState (A → m R)}
    (h : TrackedState.SkipRel n s1 s2) (f : A → m R) :
    TrackedState.SkipRel n (s1.step (.push_back f)).1 (s2.step (.push_back f)).1 := by
  obtain ⟨h1, h2, h3, h4, h5⟩ := h
  refine ⟨?_, ?_, ?_, ?_, ?_⟩
  · rw [TrackedState.step_push_back_heap, List.length_append]
    omega
  · rw [TrackedState.step_push_back_heap, TrackedState.step_push_back_heap, List.length_append,
      List.length_append, h2]
    simp
  · intro i
    rw [TrackedState.step_push_back_heap, TrackedState.step_push_back_heap]
    rcases Nat.lt_trichotomy i s1.heap.length with hi | hi | hi
    · have hlt : skipAddress n i < s2.heap.length := by
        unfold skipAddress
        split <;> omega
      rw [List.getElem?_append_left hlt, List.getElem?_append_left hi]
      exact h3 i
    · have hsk : skipAddress n i = s2.heap.length := by
        unfold skipAddress
        split <;> omega
      rw [hsk, hi]
      simp
    · have hgt : s2.heap.length < skipAddress n i := by
        unfold skipAddress
        split <;> omega
      rw [List.getElem?_eq_none, List.getElem?_eq_none]
      · simp only [List.length_append, List.length_singleton]
        omega
      · simp only [List.length_append, List.length_singleton]
        omega
  · have hn : n < s2.heap.length := by omega
    rw [TrackedState.step_push_back_heap, lock_append_of_lt _ _ _ hn]
    exact h4
  · rw [TrackedState.step_push_back_vec, TrackedState.step_push_back_vec, List.filter_append,
      List.map_append, h5]
    congr 1
    have hsk : skipAddress n s1.heap.length = s2.heap.length := by
      unfold skipAddress
      split <;> omega
    have hne : s2.heap.length ≠ n := by omega
    simp [hsk, hne]

theorem TrackedState.SkipRel.clean {n : Nat} {s1 s2 : TrackedState F}
    (h : TrackedState.SkipRel n s1 s2) :
    TrackedState.SkipRel n ⟨s1.heap, FederateBase.cleanTracked_true s1.heap s1.fed⟩
      ⟨s2.heap, FederateBase.cleanTracked_true s2.heap s2.fed⟩ := by
  refine ⟨h.1, h.2.1, h.2.2.1, h.2.2.2.1, ?_⟩
  show (FederateBase.cleanTracked_true s2.heap s2.fed).functions.vec.filter _
    = (FederateBase.cleanTracked_true s1.heap s1.fed).functions.vec.map _
  rw [FederateBase.cleanTracked_true_vec, FederateBase.cleanTracked_true_vec, List.filter_filter]
  have hcomm : s2.fed.functions.vec.filter
      (fun a => decide (a ≠ n) && !FederateBase.expired s2.heap a)
      = (s2.fed.functions.vec.filter (fun w => decide (w ≠ n))).filter
          (fun a => !FederateBase.expired s2.heap a) := by
    rw [List.filter_filter]
    congr 1
    funext a
    exact Bool.and_comm _ _
  rw [hcomm, h.2.2.2.2, List.filter_map]
  congr 1
  apply List.filter_congr
  intro i _
  simp [FederateBase.expired, h.lock_skip i]

theorem TrackedState.SkipRel.step {n : Nat} {s1 s2 : TrackedState (A → m R)}
    (h : TrackedState.SkipRel n s1 s2) (c : ClientAction m A R) :
    TrackedState.SkipRel n (s1.step c).1 (s2.step (c.rename (skipAddress n))).1
    ∧ invokeResults [(s2.step (c.rename (skipAddress n))).2] = invokeResults [(s1.step c).2] := by
  cases c with
  | push_back f => exact ⟨h.push_back f, rfl⟩
  | copy t => exact ⟨h.modify _ t, rfl⟩
  | drop t => exact ⟨h.modify _ t, rfl⟩
  | invoke args =>
    refine ⟨h, ?_⟩
    show [Federate.invokeTracked_true s2.heap s2.fed args]
      = [Federate.invokeTracked_true s1.heap s1.fed args]
    have := h.live_eq
    unfold TrackedState.live at this
    simp only [Federate.invokeTracked_true, Federate.invokeTracked_true_loop_eq, this]
  | size => exact ⟨h, rfl⟩
  | empty => exact ⟨h, rfl⟩
  | garbageSize => exact ⟨h, rfl⟩
  | clean => exact ⟨h.clean, rfl⟩
  | clear => exact ⟨⟨h.1, h.2.1, h.2.2.1, h.2.2.2.1, rfl⟩, rfl⟩

theorem TrackedState.SkipRel.run {n : Nat} {s1 s2 : TrackedState (A → m R)}
    (h : TrackedState.SkipRel n s1 s2) (acts : List (ClientAction m A R)) :
    invokeResults (s2.run (acts.map (ClientAction.rename (skipAddress n)))).2
      = invokeResults (s1.run acts).2 := by
  induction acts generalizing s1 s2 with
  | nil => rfl
  | cons c cs ih =>
    simp only [List.map_cons, TrackedState.run_cons]
    rw [invokeResults_cons, invokeResults_cons _ (TrackedState.run _ cs).2, (h.step c).2,
      ih (h.step c).1]

theorem TrackedState.SkipRel.push_back_discard (s : TrackedState F) (hs : s.InBounds)
    (f : F) : TrackedState.SkipRel s.heap.length s (s.push_back_discard f) := by
  have hheap : (s.push_back_discard f).heap = s.heap ++ [ControlBlock.mk f 0] := by
    simp [TrackedState.push_back_discard, FederateBase.push_back_tracked, make_shared,
      Tracker.drop, List.modify_eq_set_get?, List.set_eq_take_append_cons_drop]
  have hvec : (s.push_back_discard f).fed.functions.vec = s.fed.functions.vec ++ [s.heap.length] :=
    rfl
  refine ⟨le_refl _, by simp [hheap], ?_, ?_, ?_⟩
  · intro i
    rw [hheap]
    by_cases hi : i < s.heap.length
    · simp [skipAddress, hi, List.getElem?_append_left hi]
    · rw [List.getElem?_eq_none, List.getElem?_eq_none]
      · omega
      · simp only [skipAddress, hi, if_false, List.length_append, List.length_singleton]
        omega
  · rw [hheap]
    simp [lock]
  · rw [hvec, List.filter_append]
    have h1 : s.fed.functions.vec.filter (fun w => decide (w ≠ s.heap.length))
        = s.fed.functions.vec := by
      rw [List.filter_eq_self]
      intro w hw
      have hlt : w < s.heap.length := hs w hw
      simpa using Nat.ne_of_lt hlt
    have h2 : s.fed.functions.vec.map (skipAddress s.heap.length) = s.fed.functions.vec := by
      conv_rhs => rw [← List.map_id s.fed.functions.vec]
      apply List.map_congr_left
      intro w hw
      simp [skipAddress, hs w hw]
    rw [h1, h2]
    simp

theorem TrackedState.wf_step (s : TrackedState (A → m R)) (hs : s.WF) (c : ClientAction m A R) :
    (s.step c).1.WF := by
  cases c with
  | push_back f =>
    refine ⟨s.inBounds_push_back hs.1 f, ?_⟩
    rw [TrackedState.step_push_back_vec]
    apply List.Nodup.append hs.2 (List.nodup_singleton _)
    intro w hw hw2
    have hlt : w < s.heap.length := hs.1 w hw
    have heq : w = s.heap.length := List.mem_singleton.1 hw2
    exact absurd heq (Nat.ne_of_lt hlt)
  | copy t =>
    refine ⟨fun w hw => ?_, hs.2⟩
    show w < (List.modify _ t s.heap).length
    rw [List.length_modify]
    exact hs.1 w hw
  | drop t =>
    refine ⟨fun w hw => ?_, hs.2⟩
    show w < (List.modify _ t s.heap).length
    rw [List.length_modify]
    exact hs.1 w hw
  | invoke args => exact hs
  | size => exact hs
  | empty => exact hs
  | garbageSize => exact hs
  | clean =>
    have hv : (s.step ClientAction.clean).1.fed.functions.vec
        = s.fed.functions.vec.filter (fun w => !FederateBase.expired s.heap w) :=
      FederateBase.cleanTracked_true_vec s.heap s.fed
    refine ⟨fun w hw => ?_, ?_⟩
    · rw [hv] at hw
      exact hs.1 w (List.mem_filter.1 hw).1
    · rw [hv]
      exact hs.2.filter _
  | clear =>
    refine ⟨fun w hw => ?_, List.nodup_nil⟩
    exact absurd hw (List.not_mem_nil w)

/-- Every memory a client program can reach from the fresh one is well formed. -/
theorem TrackedState.wf_run (acts : List (ClientAction m A R)) :
    ((TrackedState.init : TrackedState (A → m R)).run acts).1.WF := by
  have hgen : ∀ (s : TrackedState (A → m R)), s.WF → (s.run acts).1.WF := by
    induction acts with
    | nil => exact fun s hs => hs
    | cons c cs ih => exact fun s hs => ih _ (s.wf_step hs c)
  exact hgen _ ⟨TrackedState.inBounds_init, List.nodup_nil⟩

theorem Federate.invoke_eq_liveHandlers (Tracked : Bool) (heap : Heap (A → m R))
    (fed : FederateBase (A → m R) Tracked) (a : A) :
    Federate.invoke heap fed a
      = Federate.invokeTracked_false_loop a (FederateBase.liveHandlers heap fed) [] := by
  cases Tracked with
  | false => rfl
  | true => exact Federate.invokeTracked_true_loop_eq heap a _ []

end Lemmas

section EffLemmas

variable {S E A R : Type}

theorem Eff.bind_apply {T : Type} (x : Eff S E R) (f : R → Eff S E T) (s : S) :
    (x >>= f) s = match x s with
      | (Except.ok r, s1) => f r s1
      | (Except.error e, s1) => (Except.error e, s1) := rfl

theorem Eff.pure_apply (r : R) (s : S) : (pure r : Eff S E R) s = (Except.ok r, s) := rfl

theorem Federate.invokeTracked_false_loop_returns (a : A) (hs : List (A → Eff S E R)) (s s1 : S)
    (rs : List R) (h : CallsReturn a hs s rs s1) (results : List R) :
    Federate.invokeTracked_false_loop a hs results s = (Except.ok (results ++ rs), s1) := by
  induction h generalizing results with
  | nil s => simp [Federate.invokeTracked_false_loop, Eff.pure_apply]
  | cons hcall _ ih =>
    simp only [Federate.invokeTracked_false_loop, Eff.bind_apply, hcall, ih]
    simp

theorem Federate.invokeTracked_false_loop_throws (a : A) (pre post : List (A → Eff S E R))
    (hk : A → Eff S E R) (s s1 s2 : S) (rs : List R) (e : E) (h : CallsReturn a pre s rs s1)
    (hfail : hk a s1 = (Except.error e, s2)) (results : List R) :
    Federate.invokeTracked_false_loop a (pre ++ hk :: post) results s = (Except.error e, s2) := by
  induction h generalizing results with
  | nil s => simp [Federate.invokeTracked_false_loop, Eff.bind_apply, hfail]
  | cons hcall _ ih =>
    simp only [List.cons_append, Federate.invokeTracked_false_loop, Eff.bind_apply, hcall]
    exact ih hfail _

end EffLemmas

theorem FederateRVoid.invokeAsyncTracked_false_loop_get {R : Type} (vec : List (Unit → Id R))
    (futures : List (Future Id R)) :
    (FederateRVoid.invokeAsyncTracked_false_loop vec futures).map (fun fut => Id.run fut.get)
      = futures.map (fun fut => Id.run fut.get) ++ vec.map (fun f => Id.run (f ())) := by
  induction vec generalizing futures with
  | nil => simp [FederateRVoid.invokeAsyncTracked_false_loop]
  | cons f rest ih =>
    rw [FederateRVoid.invokeAsyncTracked_false_loop, ih]
    simp [async, Future.get]

/-- The one value-returning `invokeAsync` variant that is well formed, the untracked
`R(void)` registry: one future per entry, in sequence order, and the values that `get()`
hands out are the values `invoke` returns. -/
theorem FederateRVoid.invokeAsync_untracked_agrees {R : Type}
    (fed : FederateBase (Unit → Id R) false) :
    (FederateRVoid.invokeAsyncTracked_false fed).map (fun fut => Id.run fut.get)
      = Id.run (Federate.invokeTracked_false fed ()) := by
  simp [FederateRVoid.invokeAsyncTracked_false, FederateRVoid.invokeAsyncTracked_false_loop_get,
    Federate.invokeTracked_false, Federate.invokeTracked_false_loop_pure]

/-- C1: handlers registered with push_back into an empty registry, untracked or tracked
with every Tracker retained, are invoked in registration order: the result of invoke has
one element per handler and its i-th element is the i-th handler applied to the argument. -/
theorem Federate.invoke_registration_order {A R : Type} (hs : List (A → Id R)) (a : A)
    (heap : Heap (A → Id R)) :
    (Id.run (Federate.invoke heap (hs.foldl FederateBase.push_back_untracked FederateBase.init) a)
        = hs.map (fun h => h a)
      ∧ (Id.run (Federate.invoke heap
          (hs.foldl FederateBase.push_back_untracked FederateBase.init) a)).length = hs.length)
    ∧ (Id.run (Federate.invoke (TrackedState.init.run (hs.map ClientAction.push_back)).1.heap
          (TrackedState.init.run (hs.map ClientAction.push_back)).1.fed a)
        = hs.map (fun h => h a)
      ∧ (Id.run (Federate.invoke (TrackedState.init.run (hs.map ClientAction.push_back)).1.heap
          (TrackedState.init.run (hs.map ClientAction.push_back)).1.fed a)).length
        = hs.length) := by
  have hu : Id.run (Federate.invoke heap
      (hs.foldl FederateBase.push_back_untracked FederateBase.init) a) = hs.map (fun h => h a) := by
    show Id.run (Federate.invokeTracked_false _ a) = _
    unfold Federate.invokeTracked_false
    rw [Federate.invokeTracked_false_loop_pure, foldl_push_back_untracked_vec]
    simp [FederateBase.init, Id.run]
  have ht : Id.run (Federate.invoke (TrackedState.init.run (hs.map ClientAction.push_back)).1.heap
      (TrackedState.init.run (hs.map ClientAction.push_back)).1.fed a)
        = hs.map (fun h => h a) := by
    show Id.run (Federate.invokeTracked_true _ _ a) = _
    rw [Federate.invokeTracked_true_pure]
    have := TrackedState.live_run_push_back TrackedState.init TrackedState.inBounds_init hs
    unfold TrackedState.live at this
    rw [this]
    simp [TrackedState.init, FederateBase.init, Id.run]
  refine ⟨⟨hu, ?_⟩, ⟨ht, ?_⟩⟩
  · rw [hu, List.length_map]
  · rw [ht, List.length_map]

/-- C1, the scenario of the test suite: x*2, 2^x and x^2 registered in this order and
invoked on 8 give 16, 256, 64, untracked as well as tracked. -/
theorem Federate.invoke_registration_order_test :
    Id.run (Federate.invoke [] testIntInt 8) = [16, 256, 64]
    ∧ Id.run (Federate.invoke
        (TrackedState.init.run [.push_back multiplyBy2, .push_back powerOf2, .push_back square]).1.heap
        (TrackedState.init.run [.push_back multiplyBy2, .push_back powerOf2, .push_back square]).1.fed
        (8 : Int)) = [16, 256, 64] := by
  have h := Federate.invoke_registration_order [multiplyBy2, powerOf2, square] (8 : Int) []
  refine ⟨?_, ?_⟩
  · rw [show testIntInt = [multiplyBy2, powerOf2, square].foldl FederateBase.push_back_untracked
      FederateBase.init from rfl, h.1.1]
    decide
  · rw [show ([.push_back multiplyBy2, .push_back powerOf2, .push_back square] :
        List (ClientAction Id Int Int))
      = [multiplyBy2, powerOf2, square].map ClientAction.push_back from rfl, h.2.1]
    decide

/-- With handlers that act on no Tracker, tracked invoke returns the results of the entries
that are not expired, in sequence order, and as many as size() minus garbageSize(). -/
theorem Federate.invoke_tracked_live_entries {A R : Type} (heap : Heap (A → Id R))
    (fed : FederateBase (A → Id R) true) (a : A) :
    Id.run (Federate.invoke heap fed a)
        = (fed.functions.vec.filterMap (lock heap)).map (fun f => f a)
    ∧ (Id.run (Federate.invoke heap fed a)).length
        = fed.size - FederateBase.garbageSize heap fed := by
  have h1 : Id.run (Federate.invoke heap fed a)
      = (fed.functions.vec.filterMap (lock heap)).map (fun f => f a) := by
    show Id.run (Federate.invokeTracked_true heap fed a) = _
    rw [Federate.invokeTracked_true_pure]
    rfl
  refine ⟨h1, ?_⟩
  rw [h1, List.length_map]
  show _ = fed.functions.vec.length - fed.functions.vec.countP (FederateBase.expired heap)
  generalize fed.functions.vec = vec
  induction vec with
  | nil => simp
  | cons w rest ih =>
    have hle : rest.countP (FederateBase.expired heap) ≤ rest.length := List.countP_le_length _
    cases hw : lock heap w with
    | none =>
      simp only [List.filterMap_cons, hw, List.countP_cons, FederateBase.expired,
        Option.isNone_none, if_true, List.length_cons, ih]
      simp only [FederateBase.expired] at hle
      omega
    | some f =>
      simp only [List.filterMap_cons, hw, List.countP_cons, FederateBase.expired,
        Option.isNone_some, List.length_cons, ih]
      simp only [FederateBase.expired] at hle
      simp
      omega

/-- C5: in tracked mode clean() leaves exactly the entries that were not expired, in their
original relative order; afterwards garbageSize() is 0 and size() is the old size() minus
the old garbageSize(). -/
theorem FederateBase.clean_tracked_keeps_live {F : Type} (heap : Heap F)
    (fed : FederateBase F true) :
    (FederateBase.clean heap fed).functions.vec
        = fed.functions.vec.filter (fun w => (lock heap w).isSome)
    ∧ FederateBase.garbageSize heap (FederateBase.clean heap fed) = 0
    ∧ (FederateBase.clean heap fed).size = fed.size - FederateBase.garbageSize heap fed := by
  have hv := FederateBase.cleanTracked_true_vec heap fed
  refine ⟨?_, ?_, ?_⟩
  · show (FederateBase.cleanTracked_true heap fed).functions.vec = _
    rw [hv]
    congr 1
    funext w
    simp only [FederateBase.expired]
    cases lock heap w <;> rfl
  · show (FederateBase.cleanTracked_true heap fed).functions.vec.countP _ = 0
    rw [hv]
    exact countP_expired_filter_live heap _
  · show (FederateBase.cleanTracked_true heap fed).functions.vec.length = _
    rw [hv]
    exact length_filter_live heap _

/-- C6: clean() is idempotent in both tracking modes: a second clean() in a row leaves the
registry as the first one left it, hence size(), garbageSize() and the outcome of invoke
are those after the first call. -/
theorem FederateBase.clean_idempotent {m : Type → Type} [Monad m] {A R : Type}
    (Tracked : Bool) (heap : Heap (A → m R)) (fed : FederateBase (A → m R) Tracked) :
    FederateBase.clean heap (FederateBase.clean heap fed) = FederateBase.clean heap fed
    ∧ (FederateBase.clean heap (FederateBase.clean heap fed)).size
        = (FederateBase.clean heap fed).size
    ∧ FederateBase.garbageSize heap (FederateBase.clean heap (FederateBase.clean heap fed))
        = FederateBase.garbageSize heap (FederateBase.clean heap fed)
    ∧ ∀ a : A, Federate.invoke heap (FederateBase.clean heap (FederateBase.clean heap fed)) a
        = Federate.invoke heap (FederateBase.clean heap fed) a := by
  have h : FederateBase.clean heap (FederateBase.clean heap fed) = FederateBase.clean heap fed := by
    cases Tracked with
    | false => rfl
    | true =>
      show FederateBase.cleanTracked_true heap (FederateBase.cleanTracked_true heap fed)
        = FederateBase.cleanTracked_true heap fed
      have h1 := FederateBase.cleanTracked_true_vec heap (FederateBase.cleanTracked_true heap fed)
      have h2 := FederateBase.cleanTracked_true_vec heap fed
      rw [h2, List.filter_filter] at h1
      simp only [Bool.and_self] at h1
      rw [← h2] at h1
      cases hx : FederateBase.cleanTracked_true heap (FederateBase.cleanTracked_true heap fed) with
      | mk fx =>
        cases hy : FederateBase.cleanTracked_true heap fed with
        | mk fy =>
          cases fx
          cases fy
          simp_all
  refine ⟨h, ?_, ?_, ?_⟩
  · rw [h]
  · rw [h]
  · intro a
    rw [h]

/-- C7: after clear(), in either tracking mode and whatever the entries were, size() is 0,
empty() is true and garbageSize() is 0. -/
theorem FederateBase.clear_empties {F : Type} (Tracked : Bool) (heap : Heap F)
    (fed : FederateBase F Tracked) :
    fed.clear.size = 0 ∧ fed.clear.empty = true ∧ FederateBase.garbageSize heap fed.clear = 0 := by
  cases Tracked <;> exact ⟨rfl, rfl, rfl⟩

/-- C8: N push_back calls on an empty registry give size() = N. Untracked: the registry
built from a list of handlers has the list's length. Tracked: after any run of client
actions without clean() and clear(), with Trackers kept, copied or dropped at will, size()
is the number of push_back calls. -/
theorem FederateBase.size_counts_push_back {m : Type → Type} [Monad m] {A R : Type}
    (hs : List (A → m R)) (acts : List (ClientAction m A R))
    (hacts : ∀ c ∈ acts, c.removes = false) :
    (hs.foldl FederateBase.push_back_untracked FederateBase.init).size = hs.length
    ∧ (TrackedState.init.run acts).1.fed.size = acts.countP (fun c => c.isPushBack) := by
  constructor
  · simp [FederateBase.size, foldl_push_back_untracked_vec, FederateBase.init]
  · rw [TrackedState.size_run _ _ hacts]
    simp [TrackedState.init, FederateBase.init, FederateBase.size]

/-- C8 at three registrations: untracked size 3; tracked size 3 although the second
Tracker is dropped right after its push_back and the third one is copied. -/
theorem FederateBase.size_counts_push_back_test :
    (∀ c ∈ ([.push_back multiplyBy2, .push_back powerOf2, .drop 1, .invoke 8, .push_back square,
        .copy 2, .garbageSize] : List (ClientAction Id Int Int)), c.removes = false)
    ∧ ([multiplyBy2, powerOf2, square].foldl FederateBase.push_back_untracked
        (FederateBase.init : FederateBase (Int → Id Int) false)).size = 3
    ∧ (TrackedState.init.run ([.push_back multiplyBy2, .push_back powerOf2, .drop 1, .invoke 8,
        .push_back square, .copy 2, .garbageSize] : List (ClientAction Id Int Int))).1.fed.size
        = 3 :=
  have hacts : ∀ c ∈ ([.push_back multiplyBy2, .push_back powerOf2, .drop 1, .invoke 8,
      .push_back square, .copy 2, .garbageSize] : List (ClientAction Id Int Int)),
      c.removes = false := by
    intro c hc
    simp only [List.mem_cons, List.mem_singleton, List.not_mem_nil, or_false] at hc
    rcases hc with h | h | h | h | h | h | h <;> subst h <;> rfl
  ⟨hacts, FederateBase.size_counts_push_back [multiplyBy2, powerOf2, square] _ hacts⟩

/-- C4: in tracked mode a push_back whose returned Tracker is discarded at once adds an
entry that is expired from the start: size() and garbageSize() both grow by one, the next
invoke returns what it returned before the registration, and so does every invoke later in
any run of client actions, compared with the same run without that registration (in which
the control blocks allocated later lie one address lower). -/
theorem TrackedState.push_back_discard_inert {m : Type → Type} [Monad m] {A R : Type}
    (s : TrackedState (A → m R)) (hs : s.InBounds) (B : A → m R) :
    (s.push_back_discard B).fed.size = s.fed.size + 1
    ∧ FederateBase.garbageSize (s.push_back_discard B).heap (s.push_back_discard B).fed
        = FederateBase.garbageSize s.heap s.fed + 1
    ∧ (∀ a : A, Federate.invoke (s.push_back_discard B).heap (s.push_back_discard B).fed a
        = Federate.invoke s.heap s.fed a)
    ∧ ∀ acts : List (ClientAction m A R),
        invokeResults ((s.push_back_discard B).run
            (acts.map (ClientAction.rename (skipAddress s.heap.length)))).2
          = invokeResults (s.run acts).2 := by
  have hrel := TrackedState.SkipRel.push_back_discard s hs B
  refine ⟨?_, ?_, ?_, fun acts => hrel.run acts⟩
  · simp [TrackedState.push_back_discard, FederateBase.push_back_tracked, FederateBase.size]
  · show (s.fed.functions.vec ++ [s.heap.length]).countP
        (FederateBase.expired (s.push_back_discard B).heap)
      = s.fed.functions.vec.countP (FederateBase.expired s.heap) + 1
    have hn : FederateBase.expired (s.push_back_discard B).heap s.heap.length = true := by
      simp [FederateBase.expired, hrel.2.2.2.1]
    have hold : s.fed.functions.vec.countP (FederateBase.expired (s.push_back_discard B).heap)
        = s.fed.functions.vec.countP (FederateBase.expired s.heap) := by
      apply List.countP_congr
      intro w hw
      have hlt : w < s.heap.length := hs w hw
      have := hrel.lock_skip w
      simp only [skipAddress, hlt, if_true] at this
      simp [FederateBase.expired, this]
    rw [List.countP_append, hold]
    simp [List.countP_cons, hn]
  · intro a
    show Federate.invokeTracked_true _ _ a = Federate.invokeTracked_true _ _ a
    have := hrel.live_eq
    unfold TrackedState.live at this
    simp only [Federate.invokeTracked_true, Federate.invokeTracked_true_loop_eq, this]

/-- C4, the scenario of the test suite: handler A registered with its Tracker kept, then
handler B with its Tracker discarded; garbageSize() is 1 and invoke returns the result of A
only. -/
theorem TrackedState.push_back_discard_inert_test :
    oneHandler.InBounds
    ∧ (oneHandler.push_back_discard powerOf2).fed.size = 2
    ∧ FederateBase.garbageSize (oneHandler.push_back_discard powerOf2).heap
        (oneHandler.push_back_discard powerOf2).fed = 1
    ∧ Id.run (Federate.invoke (oneHandler.push_back_discard powerOf2).heap
        (oneHandler.push_back_discard powerOf2).fed 8) = [16] :=
  have hin : oneHandler.InBounds := by
    intro w hw
    have hw2 : w ∈ [0] := hw
    have hlen : oneHandler.heap.length = 1 := rfl
    rw [hlen, List.mem_singleton.1 hw2]
    decide
  have h := TrackedState.push_back_discard_inert oneHandler hin powerOf2
  ⟨hin, h.1, h.2.1, (congrArg Id.run (h.2.2.1 8)).trans (by decide)⟩

/-- C9: a throwing handler aborts synchronous invoke. When the handlers before the k-th
live one return normally and the k-th throws, invoke throws that same exception, hands out
no result sequence, and ends in the state the k-th call left, so that no later handler has
run, whatever the later handlers are; when every live handler returns normally, invoke
returns all their results in order. -/
theorem Federate.invoke_throwing_handler_aborts {S E A R : Type} (Tracked : Bool)
    (heap : Heap (A → Eff S E R)) (fed : FederateBase (A → Eff S E R) Tracked) (a : A) (s0 : S) :
    (∀ (pre post : List (A → Eff S E R)) (hk : A → Eff S E R) (rs : List R) (s1 s2 : S) (e : E),
        FederateBase.liveHandlers heap fed = pre ++ hk :: post →
        CallsReturn a pre s0 rs s1 → hk a s1 = (Except.error e, s2) →
        Federate.invoke heap fed a s0 = (Except.error e, s2))
    ∧ (∀ (rs : List R) (s1 : S), CallsReturn a (FederateBase.liveHandlers heap fed) s0 rs s1 →
        Federate.invoke heap fed a s0 = (Except.ok rs, s1)
        ∧ rs.length = (FederateBase.liveHandlers heap fed).length) := by
  constructor
  · intro pre post hk rs s1 s2 e hlive hpre hfail
    rw [Federate.invoke_eq_liveHandlers, hlive]
    exact Federate.invokeTracked_false_loop_throws a pre post hk s0 s1 s2 rs e hpre hfail []
  · intro rs s1 hall
    rw [Federate.invoke_eq_liveHandlers]
    refine ⟨?_, ?_⟩
    · rw [Federate.invokeTracked_false_loop_returns a _ s0 s1 rs hall []]
      simp
    · generalize FederateBase.liveHandlers heap fed = hs at hall
      induction hall with
      | nil s => rfl
      | cons _ _ ih => simp [ih]

/-- C9 on three logging handlers of which the second throws: invoke throws the exception of
the second handler and the call log holds the first two handlers only. -/
theorem Federate.invoke_throwing_handler_aborts_test :
    (FederateBase.liveHandlers [] throwingSecond = [logged 0] ++ loggedThrow 1 "boom" :: [logged 2]
      ∧ CallsReturn () [logged 0] [] [0] [0]
      ∧ loggedThrow 1 "boom" () [0] = (Except.error "boom", [0, 1]))
    ∧ Federate.invoke [] throwingSecond () [] = (Except.error "boom", [0, 1]) :=
  have hlive : FederateBase.liveHandlers [] throwingSecond
      = [logged 0] ++ loggedThrow 1 "boom" :: [logged 2] := rfl
  have hpre : CallsReturn () [logged 0] [] [0] [0] := CallsReturn.cons rfl (CallsReturn.nil _)
  have hfail : loggedThrow 1 "boom" () [0] = (Except.error "boom", [0, 1]) := rfl
  ⟨⟨hlive, hpre, hfail⟩,
    (Federate.invoke_throwing_handler_aborts false [] throwingSecond () []).1 [logged 0] [logged 2]
      (loggedThrow 1 "boom") [0] [0] [0, 1] "boom" hlive hpre hfail⟩

section MoreLemmas

variable {m : Type → Type} [Monad m] {A R F : Type}

theorem expired_iff_use_count (heap : Heap F) (w : WeakTracker) :
    FederateBase.expired heap w = (use_count heap w == 0) := by
  unfold FederateBase.expired lock use_count
  cases h : heap[w]? with
  | none => simp
  | some cb =>
    by_cases hz : cb.strong = 0
    · simp [hz]
    · simp [hz]

theorem length_liveHandlers_tracked (heap : Heap F) (fed : FederateBase F true) :
    (FederateBase.liveHandlers heap fed).length + FederateBase.garbageSize heap fed = fed.size := by
  show (fed.functions.vec.filterMap (lock heap)).length
      + fed.functions.vec.countP (FederateBase.expired heap) = fed.functions.vec.length
  generalize fed.functions.vec = vec
  induction vec with
  | nil => rfl
  | cons w rest ih =>
    cases hw : lock heap w with
    | none =>
      simp only [List.filterMap_cons, hw, List.countP_cons, FederateBase.expired,
        Option.isNone_none, if_true, List.length_cons]
      simp only [FederateBase.expired] at ih
      omega
    | some f =>
      simp only [List.filterMap_cons, hw, List.countP_cons, FederateBase.expired,
        Option.isNone_some, List.length_cons]
      simp only [FederateBase.expired] at ih
      simp
      omega

theorem getElem?_dropN_self (heap : Heap F) (t : Nat) (cb : ControlBlock F)
    (hcb : heap[t]? = some cb) (j : Nat) :
    (Tracker.dropN heap t j)[t]? = some (ControlBlock.mk cb.object (cb.strong - j)) := by
  induction j generalizing heap cb with
  | zero => simpa [Tracker.dropN] using hcb
  | succ j ih =>
    have h1 : (Tracker.drop heap t)[t]? = some (ControlBlock.mk cb.object (cb.strong - 1)) := by
      simp [Tracker.drop, hcb]
    rw [Tracker.dropN, ih _ _ h1]
    simp only [Option.some.injEq, ControlBlock.mk.injEq, true_and]
    omega

theorem getElem?_dropN_of_ne (heap : Heap F) (t w : Nat) (h : t ≠ w) (j : Nat) :
    (Tracker.dropN heap t j)[w]? = heap[w]? := by
  induction j generalizing heap with
  | zero => rfl
  | succ j ih =>
    rw [Tracker.dropN, ih]
    simp [Tracker.drop, List.getElem?_modify_ne _ _ h]

theorem lock_dropN_of_ne (heap : Heap F) (t w : Nat) (h : t ≠ w) (j : Nat) :
    lock (Tracker.dropN heap t j) w = lock heap w := by
  unfold lock
  rw [getElem?_dropN_of_ne heap t w h j]

theorem lock_dropN_of_lt (heap : Heap F) (t : Nat) (cb : ControlBlock F)
    (hcb : heap[t]? = some cb) (j : Nat) (hj : j < cb.strong) :
    lock (Tracker.dropN heap t j) t = some cb.object := by
  unfold lock
  rw [getElem?_dropN_self heap t cb hcb j]
  have : cb.strong - j ≠ 0 := by omega
  simp [this]

theorem lock_dropN_of_ge (heap : Heap F) (t : Nat) (cb : ControlBlock F)
    (hcb : heap[t]? = some cb) (j : Nat) (hj : cb.strong ≤ j) :
    lock (Tracker.dropN heap t j) t = none := by
  unfold lock
  rw [getElem?_dropN_self heap t cb hcb j]
  have : cb.strong - j = 0 := by omega
  simp [this]

theorem lock_dropN_eq_of_lt (heap : Heap F) (t : Nat) (cb : ControlBlock F)
    (hcb : heap[t]? = some cb) (j : Nat) (hj : j < cb.strong) (w : Nat) :
    lock (Tracker.dropN heap t j) w = lock heap w := by
  by_cases hw : t = w
  · subst hw
    rw [lock_dropN_of_lt heap t cb hcb j hj, lock_of_strong_pos heap t cb hcb (by omega)]
  · exact lock_dropN_of_ne heap t w hw j

/-- One entry goes from live to expired and every other block keeps its state: one more
expired entry is counted. -/
theorem countP_expired_of_expire_one (heap heap2 : Heap F) (t : Nat)
    (hlive : FederateBase.expired heap t = false) (hexp : FederateBase.expired heap2 t = true)
    (hother : ∀ w, t ≠ w → lock heap2 w = lock heap w) (vec : List WeakTracker)
    (hnd : vec.Nodup) (ht : t ∈ vec) :
    vec.countP (FederateBase.expired heap2) = vec.countP (FederateBase.expired heap) + 1 := by
  induction vec with
  | nil => simp at ht
  | cons w rest ih =>
    rw [List.nodup_cons] at hnd
    by_cases hwt : w = t
    · subst hwt
      have hrest : rest.countP (FederateBase.expired heap2)
          = rest.countP (FederateBase.expired heap) := by
        apply List.countP_congr
        intro x hx
        have hne : w ≠ x := by
          rintro rfl
          exact hnd.1 hx
        simp [FederateBase.expired, hother x hne]
      simp [List.countP_cons, hlive, hexp, hrest]
    · have ht2 : t ∈ rest := by
        rcases List.mem_cons.1 ht with h | h
        · exact absurd h.symm hwt
        · exact h
      have := ih hnd.2 ht2
      have hw : FederateBase.expired heap2 w = FederateBase.expired heap w := by
        simp [FederateBase.expired, hother w (Ne.symm hwt)]
      simp only [List.countP_cons, hw] at this ⊢
      omega

theorem getElem?_copyN_self (heap : Heap F) (t : Nat) (cb : ControlBlock F)
    (hcb : heap[t]? = some cb) (hpos : cb.strong ≠ 0) (j : Nat) :
    (Tracker.copyN heap t j)[t]? = some (ControlBlock.mk cb.object (cb.strong + j)) := by
  induction j generalizing heap cb with
  | zero => simpa [Tracker.copyN] using hcb
  | succ j ih =>
    have h1 : (Tracker.copy heap t)[t]? = some (ControlBlock.mk cb.object (cb.strong + 1)) := by
      simp [Tracker.copy, hcb, hpos]
    rw [Tracker.copyN, ih _ _ h1 (by simp)]
    simp only [Option.some.injEq, ControlBlock.mk.injEq, true_and]
    omega

end MoreLemmas

/-- C12: in untracked mode garbageSize() is 0 in every reachable state, that is after every
finite sequence of calls of the public interface on a fresh registry. -/
theorem FederateBase.garbageSize_untracked_zero {m : Type → Type} [Monad m] {A R : Type}
    (heap : Heap (A → m R)) (acts : List (UntrackedAction m A R)) :
    FederateBase.garbageSize heap (FederateBase.runUntracked FederateBase.init acts).1 = 0 ∧
    ∀ fed : FederateBase (A → m R) false,
      (FederateBase.stepUntracked fed UntrackedAction.garbageSize).2 = Returned.count 0 := by
  exact ⟨rfl, fun _ => rfl⟩

/-- C13: in untracked mode clean() has no effect: the registry after clean() is the registry
before, so size(), empty() and the outcome of invoke are unchanged. -/
theorem FederateBase.clean_untracked_noop {m : Type → Type} [Monad m] {A R : Type}
    (heap : Heap (A → m R)) (fed : FederateBase (A → m R) false) :
    FederateBase.clean heap fed = fed
    ∧ (FederateBase.clean heap fed).functions.vec = fed.functions.vec
    ∧ (FederateBase.clean heap fed).size = fed.size
    ∧ (FederateBase.clean heap fed).empty = fed.empty
    ∧ ∀ a : A, Federate.invoke heap (FederateBase.clean heap fed) a = Federate.invoke heap fed a :=
  ⟨rfl, rfl, rfl, rfl, fun _ => rfl⟩

/-- C13 on the registry of the test suite: three handlers, and after clean() size() is still
3 and empty() is still false. -/
theorem FederateBase.clean_untracked_noop_test :
    (FederateBase.clean [] testIntInt).size = 3
    ∧ (FederateBase.clean [] testIntInt).empty = false :=
  have h := FederateBase.clean_untracked_noop [] testIntInt
  ⟨h.2.2.1.trans (by decide), h.2.2.2.1.trans (by decide)⟩

/-- C14: in tracked mode garbageSize() is exactly the number of entries whose control block
has no owner left, the entries that are not expired make up the rest of size(), and the call
leaves the memory as it was: same entries in the same order, same size(). -/
theorem FederateBase.garbageSize_tracked_counts_expired {m : Type → Type} [Monad m]
    {A R : Type} (s : TrackedState (A → m R)) :
    FederateBase.garbageSize s.heap s.fed
        = (s.fed.functions.vec.filter (fun w => use_count s.heap w == 0)).length
    ∧ FederateBase.garbageSize s.heap s.fed
        = (s.fed.functions.vec.filter (fun w => (lock s.heap w).isNone)).length
    ∧ (FederateBase.liveHandlers s.heap s.fed).length + FederateBase.garbageSize s.heap s.fed
        = s.fed.size
    ∧ (s.step ClientAction.garbageSize).2 = Returned.count (FederateBase.garbageSize s.heap s.fed)
    ∧ (s.step ClientAction.garbageSize).1 = s
    ∧ (s.step ClientAction.garbageSize).1.fed.functions.vec = s.fed.functions.vec
    ∧ (s.step ClientAction.garbageSize).1.fed.size = s.fed.size := by
  refine ⟨?_, ?_, length_liveHandlers_tracked s.heap s.fed, rfl, rfl, rfl, rfl⟩
  · show s.fed.functions.vec.countP (FederateBase.expired s.heap) = _
    rw [List.countP_eq_length_filter]
    congr 2
    funext w
    exact expired_iff_use_count s.heap w
  · show s.fed.functions.vec.countP (FederateBase.expired s.heap) = _
    rw [List.countP_eq_length_filter]
    rfl

/-- C15: in either tracking mode empty() is true exactly when size() is 0; hence a tracked
registry that holds entries is not empty even when every one of them is expired. -/
theorem FederateBase.empty_iff_size_zero {F : Type} (Tracked : Bool)
    (fed : FederateBase F Tracked) (heap : Heap F) (fedT : FederateBase F true) :
    (fed.empty = true ↔ fed.size = 0)
    ∧ (0 < fedT.size → FederateBase.garbageSize heap fedT = fedT.size → fedT.empty = false) := by
  constructor
  · show fed.functions.vec.isEmpty = true ↔ fed.functions.vec.length = 0
    cases fed.functions.vec <;> simp
  · intro hpos _
    have hpos2 : 0 < fedT.functions.vec.length := hpos
    show fedT.functions.vec.isEmpty = false
    cases h : fedT.functions.vec with
    | nil => simp [h] at hpos2
    | cons _ _ => rfl

/-- C15 on a tracked registry whose single entry is expired: size() is 1, garbageSize() is 1
and empty() is false. -/
theorem FederateBase.empty_iff_size_zero_test :
    (0 < onlyGarbage.fed.size
      ∧ FederateBase.garbageSize onlyGarbage.heap onlyGarbage.fed = onlyGarbage.fed.size)
    ∧ onlyGarbage.fed.empty = false :=
  have hpos : 0 < onlyGarbage.fed.size := by decide
  have hall : FederateBase.garbageSize onlyGarbage.heap onlyGarbage.fed = onlyGarbage.fed.size := by
    decide
  ⟨⟨hpos, hall⟩,
    (FederateBase.empty_iff_size_zero true onlyGarbage.fed onlyGarbage.heap onlyGarbage.fed).2
      hpos hall⟩

/-- C16: several Trackers for one handler. For an entry whose control block has k >= 1
Trackers (each copy adds one), dropping j <= k of them makes the entry expired exactly when
j = k: after fewer drops the entry is live, garbageSize() is what it was and invoke behaves
as before, and the drop of the last one raises garbageSize() by one. -/
theorem Tracker.expired_iff_all_dropped {m : Type → Type} [Monad m] {A R : Type}
    (s : TrackedState (A → m R)) (hwf : s.WF) (t : Tracker) (ht : t ∈ s.fed.functions.vec)
    (cb : ControlBlock (A → m R)) (hcb : s.heap[t]? = some cb) (hk : 1 ≤ cb.strong)
    (j : Nat) (hj : j ≤ cb.strong) :
    (∀ i : Nat, use_count (Tracker.copyN s.heap t i) t = cb.strong + i)
    ∧ (FederateBase.expired (Tracker.dropN s.heap t j) t = true ↔ j = cb.strong)
    ∧ (j < cb.strong →
        lock (Tracker.dropN s.heap t j) t = some cb.object
        ∧ FederateBase.garbageSize (Tracker.dropN s.heap t j) s.fed
            = FederateBase.garbageSize s.heap s.fed
        ∧ ∀ a : A, Federate.invoke (Tracker.dropN s.heap t j) s.fed a
            = Federate.invoke s.heap s.fed a)
    ∧ (j = cb.strong →
        FederateBase.garbageSize (Tracker.dropN s.heap t j) s.fed
          = FederateBase.garbageSize s.heap s.fed + 1) := by
  refine ⟨?_, ?_, ?_, ?_⟩
  · intro i
    unfold use_count
    rw [getElem?_copyN_self s.heap t cb hcb (by omega) i]
  · constructor
    · intro hexp
      by_contra hne
      have hlt : j < cb.strong := by omega
      simp [FederateBase.expired, lock_dropN_of_lt s.heap t cb hcb j hlt] at hexp
    · intro heq
      simp [FederateBase.expired, lock_dropN_of_ge s.heap t cb hcb j (by omega)]
  · intro hlt
    refine ⟨lock_dropN_of_lt s.heap t cb hcb j hlt, ?_, ?_⟩
    · show s.fed.functions.vec.countP (FederateBase.expired (Tracker.dropN s.heap t j))
        = s.fed.functions.vec.countP (FederateBase.expired s.heap)
      apply List.countP_congr
      intro w _
      simp [FederateBase.expired, lock_dropN_eq_of_lt s.heap t cb hcb j hlt w]
    · intro a
      show Federate.invokeTracked_true _ s.fed a = Federate.invokeTracked_true _ s.fed a
      simp only [Federate.invokeTracked_true, Federate.invokeTracked_true_loop_eq]
      congr 1
      apply List.filterMap_congr
      intro w _
      exact lock_dropN_eq_of_lt s.heap t cb hcb j hlt w
  · intro heq
    apply countP_expired_of_expire_one s.heap _ t _ _ _ _ hwf.2 ht
    · simp [FederateBase.expired, lock_of_strong_pos s.heap t cb hcb (by omega)]
    · simp [FederateBase.expired, lock_dropN_of_ge s.heap t cb hcb j (by omega)]
    · intro w hw
      exact lock_dropN_of_ne s.heap t w hw j

/-- C16 on one handler with three Trackers: after two of them are dropped the entry is
live, garbageSize() is 0 and invoke on 8 still returns 16; after the third is dropped
garbageSize() is 1. -/
theorem Tracker.expired_iff_all_dropped_test :
    (threeTrackers.WF ∧ 0 ∈ threeTrackers.fed.functions.vec
      ∧ threeTrackers.heap[0]? = some (ControlBlock.mk multiplyBy2 3))
    ∧ FederateBase.expired (Tracker.dropN threeTrackers.heap 0 2) 0 = false
    ∧ FederateBase.garbageSize (Tracker.dropN threeTrackers.heap 0 2) threeTrackers.fed = 0
    ∧ Id.run (Federate.invoke (Tracker.dropN threeTrackers.heap 0 2) threeTrackers.fed 8) = [16]
    ∧ FederateBase.garbageSize (Tracker.dropN threeTrackers.heap 0 3) threeTrackers.fed = 0 + 1 :=
  have hwf : threeTrackers.WF := by
    refine ⟨?_, by decide⟩
    intro w hw
    have hw2 : w ∈ [0] := hw
    have hlen : threeTrackers.heap.length = 1 := rfl
    rw [hlen, List.mem_singleton.1 hw2]
    decide
  have hmem : 0 ∈ threeTrackers.fed.functions.vec := by decide
  have h2 := Tracker.expired_iff_all_dropped threeTrackers hwf 0 hmem
    (ControlBlock.mk multiplyBy2 3) rfl (by decide) 2 (by decide)
  have h3 := Tracker.expired_iff_all_dropped threeTrackers hwf 0 hmem
    (ControlBlock.mk multiplyBy2 3) rfl (by decide) 3 (by decide)
  ⟨⟨hwf, hmem, rfl⟩, by decide, (h2.2.2.1 (by decide)).2.1.trans (by decide),
    (congrArg Id.run ((h2.2.2.1 (by decide)).2.2 8)).trans (by decide), h3.2.2.2 rfl⟩

/-- C17: clear() in tracked mode changes the entry sequence only. The heap of shared
allocations is as before, so a handler whose Tracker a caller still holds keeps its owner
count and stays reachable through that Tracker; it is destroyed only when the callers have
dropped all of its Trackers. -/
theorem FederateBase.clear_keeps_tracked_handlers {m : Type → Type} [Monad m] {A R : Type}
    (s : TrackedState (A → m R)) (t : Tracker) (cb : ControlBlock (A → m R))
    (hcb : s.heap[t]? = some cb) (hpos : cb.strong ≠ 0) :
    (s.step ClientAction.clear).1.heap = s.heap
    ∧ (s.step ClientAction.clear).1.fed.functions.vec = []
    ∧ use_count (s.step ClientAction.clear).1.heap t = cb.strong
    ∧ Tracker.deref (s.step ClientAction.clear).1.heap t = some cb.object
    ∧ (∀ j : Nat, j < cb.strong →
        Tracker.deref (Tracker.dropN (s.step ClientAction.clear).1.heap t j) t = some cb.object)
    ∧ Tracker.deref (Tracker.dropN (s.step ClientAction.clear).1.heap t cb.strong) t = none := by
  have hheap : (s.step ClientAction.clear).1.heap = s.heap := rfl
  rw [hheap]
  refine ⟨rfl, rfl, ?_, ?_, ?_, ?_⟩
  · simp [use_count, hcb]
  · simp [Tracker.deref, hcb, hpos]
  · intro j hj
    exact lock_dropN_of_lt s.heap t cb hcb j hj
  · exact lock_dropN_of_ge s.heap t cb hcb cb.strong (le_refl _)

/-- C17 on two registered handlers whose Trackers are kept: after clear() the registry is
empty, the second handler still has its one owner, and it is destroyed once that Tracker is
dropped. -/
theorem FederateBase.clear_keeps_tracked_handlers_test :
    (twoHandlers.heap[1]? = some (ControlBlock.mk powerOf2 1))
    ∧ (twoHandlers.step ClientAction.clear).1.fed.size = 0
    ∧ use_count (twoHandlers.step ClientAction.clear).1.heap 1 = 1
    ∧ (Tracker.deref (twoHandlers.step ClientAction.clear).1.heap 1).isSome = true
    ∧ Tracker.deref (Tracker.dropN (twoHandlers.step ClientAction.clear).1.heap 1 1) 1 = none :=
  have h := FederateBase.clear_keeps_tracked_handlers twoHandlers 1 (ControlBlock.mk powerOf2 1)
    rfl (by decide)
  ⟨rfl, congrArg List.length h.2.1, h.2.2.1, by rw [h.2.2.2.1]; rfl, h.2.2.2.2.2⟩

section VoidLemmas

variable {m : Type → Type} [Monad m] {A : Type}

theorem FederateVoid.invokeTracked_true_loop_void_eq (heap : Heap (A → m Unit)) (args : A)
    (vec : List WeakTracker) :
    FederateVoid.invokeTracked_true_loop heap args vec
      = FederateVoid.invokeTracked_false_loop args (vec.filterMap (lock heap)) := by
  induction vec with
  | nil => rfl
  | cons f rest ih =>
    cases h : lock heap f with
    | none => simp [FederateVoid.invokeTracked_true_loop, h, ih]
    | some func =>
      simp [FederateVoid.invokeTracked_true_loop, FederateVoid.invokeTracked_false_loop, h, ih]

theorem FederateVoid.invoke_void_eq_liveHandlers (Tracked : Bool) (heap : Heap (A → m Unit))
    (fed : FederateBase (A → m Unit) Tracked) (a : A) :
    FederateVoid.invoke heap fed a
      = FederateVoid.invokeTracked_false_loop a (FederateBase.liveHandlers heap fed) := by
  cases Tracked with
  | false => rfl
  | true => exact FederateVoid.invokeTracked_true_loop_void_eq heap a _

theorem FederateVoidVoid.invokeTrackedFalse_loop_eq (vec : List (Unit → m Unit)) :
    FederateVoidVoid.invokeTrackedFalse_loop vec = FederateVoid.invokeTracked_false_loop () vec := by
  induction vec with
  | nil => rfl
  | cons f rest ih =>
    simp [FederateVoidVoid.invokeTrackedFalse_loop, FederateVoid.invokeTracked_false_loop, ih]

theorem FederateVoidVoid.invokeTrackedTrue_loop_eq (heap : Heap (Unit → m Unit))
    (vec : List WeakTracker) :
    FederateVoidVoid.invokeTrackedTrue_loop heap vec
      = FederateVoid.invokeTracked_true_loop heap () vec := by
  induction vec with
  | nil => rfl
  | cons f rest ih =>
    cases h : lock heap f with
    | none => simp [FederateVoidVoid.invokeTrackedTrue_loop, FederateVoid.invokeTracked_true_loop, h, ih]
    | some func =>
      simp [FederateVoidVoid.invokeTrackedTrue_loop, FederateVoid.invokeTracked_true_loop, h, ih]

end VoidLemmas

theorem FederateVoid.invokeTracked_false_loop_act {A S E : Type} (a : A) (ts : List (A → S → S))
    (s : S) :
    FederateVoid.invokeTracked_false_loop a (ts.map (fun t x => (Eff.act (t x) : Eff S E Unit))) s
      = (Except.ok (), ts.foldl (fun st t => t a st) s) := by
  induction ts generalizing s with
  | nil => rfl
  | cons t rest ih =>
    simp only [List.map_cons, FederateVoid.invokeTracked_false_loop, Eff.bind_apply, Eff.act,
      List.foldl_cons]
    exact ih (t a s)

/-- C20: for a signature without return value, invoke calls every live handler exactly
once, in registration order: with each live handler a transformer of the shared state, the
state after invoke is the transformers applied one after the other, first registered first,
to the state before. The separately written void(void) specialisations run the same
loops. -/
theorem FederateVoid.invoke_composes_handlers {S E A : Type} (Tracked : Bool)
    (heap : Heap (A → Eff S E Unit)) (fed : FederateBase (A → Eff S E Unit) Tracked) (a : A)
    (s0 : S) (ts : List (A → S → S))
    (hlive : FederateBase.liveHandlers heap fed = ts.map (fun t x => Eff.act (t x))) :
    FederateVoid.invoke heap fed a s0 = (Except.ok (), ts.foldl (fun st t => t a st) s0)
    ∧ (∀ fedF : FederateBase (Unit → Eff S E Unit) false,
        FederateVoidVoid.invokeTrackedFalse fedF = FederateVoid.invoke [] fedF ())
    ∧ (∀ (heapT : Heap (Unit → Eff S E Unit)) (fedT : FederateBase (Unit → Eff S E Unit) true),
        FederateVoidVoid.invokeTrackedTrue heapT fedT = FederateVoid.invoke heapT fedT ()) := by
  refine ⟨?_, ?_, ?_⟩
  · rw [FederateVoid.invoke_void_eq_liveHandlers, hlive]
    exact FederateVoid.invokeTracked_false_loop_act a ts s0
  · intro fedF
    exact FederateVoidVoid.invokeTrackedFalse_loop_eq fedF.functions.vec
  · intro heapT fedT
    exact FederateVoidVoid.invokeTrackedTrue_loop_eq heapT fedT.functions.vec

/-- C20 on the handlers of the test suite: x = x*2, x = 2^x, x = x^2 from x = 2 end with
x = 256, through the void(void) specialisation; y = a*2, y = 2^a, y = a^2 with a = 8 end with
y = 64. -/
theorem FederateVoid.invoke_composes_handlers_test :
    (FederateBase.liveHandlers [] testVoidVoid
        = [fun _ => multiplyBy2, fun _ => powerOf2, fun _ => square].map
            (fun t x => Eff.act (t x))
      ∧ FederateBase.liveHandlers [] testVoidInt
        = [fun x _ => multiplyBy2 x, fun x _ => powerOf2 x, fun x _ => square x].map
            (fun t x => Eff.act (t x)))
    ∧ FederateVoidVoid.invokeTrackedFalse testVoidVoid 2 = (Except.ok (), 256)
    ∧ FederateVoid.invoke [] testVoidInt 8 0 = (Except.ok (), 64) :=
  have h1 := FederateVoid.invoke_composes_handlers false [] testVoidVoid () 2
    [fun _ => multiplyBy2, fun _ => powerOf2, fun _ => square] rfl
  have h2 := FederateVoid.invoke_composes_handlers false [] testVoidInt 8 0
    [fun x _ => multiplyBy2 x, fun x _ => powerOf2 x, fun x _ => square x] rfl
  ⟨⟨rfl, rfl⟩, by rw [h1.2.1 testVoidVoid, h1.1]; rfl, by rw [h2.1]; rfl⟩

section AsyncLemmas

variable {m : Type → Type} {A F : Type}

theorem lock_copy (heap : Heap F) (f w : Nat) : lock (Tracker.copy heap f) w = lock heap w := by
  unfold lock Tracker.copy
  rw [List.getElem?_modify]
  cases h : heap[w]? with
  | none => rfl
  | some cb =>
    by_cases hfw : f = w
    · by_cases hz : cb.strong = 0
      · simp [hfw, hz]
      · simp [hfw, hz]
    · simp [hfw]

theorem getElem?_copy_of_ne (heap : Heap F) (f t : Nat) (h : f ≠ t) :
    (Tracker.copy heap f)[t]? = heap[t]? := by
  simp [Tracker.copy, List.getElem?_modify_ne _ _ h]

theorem getElem?_copy_self (heap : Heap F) (t : Nat) (cb : ControlBlock F)
    (hcb : heap[t]? = some cb) (hpos : cb.strong ≠ 0) :
    (Tracker.copy heap t)[t]? = some (ControlBlock.mk cb.object (cb.strong + 1)) := by
  simp [Tracker.copy, hcb, hpos]

theorem lock_eq_none_of_strong_pos (heap : Heap F) (t : Nat) (cb : ControlBlock F)
    (hcb : heap[t]? = some cb) (hpos : cb.strong ≠ 0) : lock heap t ≠ none := by
  rw [lock_of_strong_pos heap t cb hcb hpos]
  simp

/-- Scheduling adds one owner to the control block of a live entry for every unit scheduled
on it. -/
theorem FederateVoid.invokeAsyncTracked_true_loop_heap (args : A) (t : Nat)
    (vec : List WeakTracker) (heap : Heap (A → m Unit)) (futures : List (TrackedTask A))
    (cb : ControlBlock (A → m Unit)) (hcb : heap[t]? = some cb) (hpos : cb.strong ≠ 0) :
    (FederateVoid.invokeAsyncTracked_true_loop args heap vec futures).1[t]?
      = some (ControlBlock.mk cb.object (cb.strong + vec.count t)) := by
  induction vec generalizing heap futures cb with
  | nil => simpa [FederateVoid.invokeAsyncTracked_true_loop] using hcb
  | cons f rest ih =>
    cases hl : lock heap f with
    | none =>
      have hne : f ≠ t := by
        rintro rfl
        exact lock_eq_none_of_strong_pos heap f cb hcb hpos hl
      simp only [FederateVoid.invokeAsyncTracked_true_loop, hl]
      rw [ih heap futures cb hcb hpos, List.count_cons]
      simp [hne]
    | some func =>
      simp only [FederateVoid.invokeAsyncTracked_true_loop, hl]
      by_cases hft : f = t
      · subst hft
        rw [ih _ _ _ (getElem?_copy_self heap f cb hcb hpos) (by simp), List.count_cons]
        simp only [beq_self_eq_true, if_true, Option.some.injEq, ControlBlock.mk.injEq, true_and]
        omega
      · rw [ih (Tracker.copy heap f) _ cb ((getElem?_copy_of_ne heap f t hft).trans hcb) hpos,
          List.count_cons]
        simp [hft]

/-- One unit is scheduled for every entry found live, in sequence order. -/
theorem FederateVoid.invokeAsyncTracked_true_loop_tasks (args : A) (vec : List WeakTracker)
    (heap : Heap (A → m Unit)) (futures : List (TrackedTask A)) :
    (FederateVoid.invokeAsyncTracked_true_loop args heap vec futures).2
      = futures ++ (vec.filter (fun w => (lock heap w).isSome)).map
          (fun w => TrackedTask.mk w args) := by
  induction vec generalizing heap futures with
  | nil => simp [FederateVoid.invokeAsyncTracked_true_loop]
  | cons f rest ih =>
    cases hl : lock heap f with
    | none =>
      simp only [FederateVoid.invokeAsyncTracked_true_loop, hl]
      rw [ih]
      simp [List.filter_cons, hl]
    | some func =>
      simp only [FederateVoid.invokeAsyncTracked_true_loop, hl]
      rw [ih]
      have hfilter : rest.filter (fun w => (lock (Tracker.copy heap f) w).isSome)
          = rest.filter (fun w => (lock heap w).isSome) := by
        congr 1
        funext w
        rw [lock_copy]
      simp [List.filter_cons, hl, hfilter]

theorem FederateVoidVoid.invokeAsyncTrackedTrue_loop_eq (vec : List WeakTracker)
    (heap : Heap (Unit → m Unit)) (futures : List (TrackedTask Unit)) :
    FederateVoidVoid.invokeAsyncTrackedTrue_loop heap vec futures
      = FederateVoid.invokeAsyncTracked_true_loop () heap vec futures := by
  induction vec generalizing heap futures with
  | nil => rfl
  | cons f rest ih =>
    cases hl : lock heap f with
    | none =>
      simp [FederateVoidVoid.invokeAsyncTrackedTrue_loop,
        FederateVoid.invokeAsyncTracked_true_loop, hl, ih]
    | some func =>
      simp [FederateVoidVoid.invokeAsyncTrackedTrue_loop,
        FederateVoid.invokeAsyncTracked_true_loop, hl, ih]

end AsyncLemmas

/-- C18: a tracked handler that invokeAsync found live cannot expire while its unit is in
flight. One unit is scheduled per live entry, in sequence order, and it holds a strong
reference of its own: however many of the Trackers that existed at scheduling time are
dropped afterwards, the entry is not expired and the body of the unit runs the same handler
on the same arguments; the handler is destroyed only once the unit has finished as well. The
void(void) specialisation schedules in the same way. -/
theorem FederateVoid.invokeAsync_tracked_keeps_alive {m : Type → Type} {A : Type}
    (s : TrackedState (A → m Unit)) (hwf : s.WF) (a : A) (t : Tracker)
    (ht : t ∈ s.fed.functions.vec) (cb : ControlBlock (A → m Unit))
    (hcb : s.heap[t]? = some cb) (hpos : cb.strong ≠ 0) :
    (FederateVoid.invokeAsyncTracked_true s.heap s.fed a).2
        = (s.fed.functions.vec.filter (fun w => (lock s.heap w).isSome)).map
            (fun w => TrackedTask.mk w a)
    ∧ TrackedTask.mk t a ∈ (FederateVoid.invokeAsyncTracked_true s.heap s.fed a).2
    ∧ use_count (FederateVoid.invokeAsyncTracked_true s.heap s.fed a).1 t = cb.strong + 1
    ∧ (∀ j : Nat, j ≤ cb.strong →
        TrackedTask.body (Tracker.dropN (FederateVoid.invokeAsyncTracked_true s.heap s.fed a).1 t j)
            (TrackedTask.mk t a) = some (cb.object a)
        ∧ FederateBase.expired
            (Tracker.dropN (FederateVoid.invokeAsyncTracked_true s.heap s.fed a).1 t j) t = false)
    ∧ Tracker.deref (TrackedTask.finish
        (Tracker.dropN (FederateVoid.invokeAsyncTracked_true s.heap s.fed a).1 t cb.strong)
        (TrackedTask.mk t a)) t = none
    ∧ ∀ (heapT : Heap (Unit → m Unit)) (fedT : FederateBase (Unit → m Unit) true),
        FederateVoidVoid.invokeAsyncTrackedTrue heapT fedT
          = FederateVoid.invokeAsyncTracked_true heapT fedT () := by
  have htasks : (FederateVoid.invokeAsyncTracked_true s.heap s.fed a).2
      = (s.fed.functions.vec.filter (fun w => (lock s.heap w).isSome)).map
          (fun w => TrackedTask.mk w a) := by
    unfold FederateVoid.invokeAsyncTracked_true
    rw [FederateVoid.invokeAsyncTracked_true_loop_tasks]
    simp
  have hcount : s.fed.functions.vec.count t = 1 := List.count_eq_one_of_mem hwf.2 ht
  have hheap : (FederateVoid.invokeAsyncTracked_true s.heap s.fed a).1[t]?
      = some (ControlBlock.mk cb.object (cb.strong + 1)) := by
    unfold FederateVoid.invokeAsyncTracked_true
    rw [FederateVoid.invokeAsyncTracked_true_loop_heap a t _ s.heap [] cb hcb hpos, hcount]
  refine ⟨htasks, ?_, ?_, ?_, ?_, ?_⟩
  · rw [htasks, List.mem_map]
    refine ⟨t, List.mem_filter.2 ⟨ht, ?_⟩, rfl⟩
    rw [lock_of_strong_pos s.heap t cb hcb hpos]
    rfl
  · unfold use_count
    rw [hheap]
  · intro j hj
    have hl := lock_dropN_of_lt _ t _ hheap j (Nat.lt_succ_of_le hj)
    refine ⟨?_, ?_⟩
    · have hd : Tracker.deref
          (Tracker.dropN (FederateVoid.invokeAsyncTracked_true s.heap s.fed a).1 t j) t
          = some cb.object := hl
      unfold TrackedTask.body
      rw [hd]
      rfl
    · simp [FederateBase.expired, hl]
  · have hj := getElem?_dropN_self _ t _ hheap cb.strong
    show Tracker.deref (Tracker.drop _ t) t = none
    simp [Tracker.deref, Tracker.drop, hj]
  · intro heapT fedT
    exact FederateVoidVoid.invokeAsyncTrackedTrue_loop_eq fedT.functions.vec heapT []

/-- C18 on the two handlers of the slot demonstration: invokeAsync on 7 schedules both; once
the caller has dropped the Tracker of the second handler, the scheduled unit still runs that
handler on 7, and the handler is destroyed when the unit has finished too. -/
theorem FederateVoid.invokeAsync_tracked_keeps_alive_test :
    (slotDemo.WF ∧ 1 ∈ slotDemo.fed.functions.vec
      ∧ slotDemo.heap[1]? = some (ControlBlock.mk (slotHandler 2) 1))
    ∧ (FederateVoid.invokeAsyncTracked_true slotDemo.heap slotDemo.fed 7).2
        = [TrackedTask.mk 0 7, TrackedTask.mk 1 7]
    ∧ use_count (FederateVoid.invokeAsyncTracked_true slotDemo.heap slotDemo.fed 7).1 1 = 1 + 1
    ∧ (TrackedTask.body
          (Tracker.dropN (FederateVoid.invokeAsyncTracked_true slotDemo.heap slotDemo.fed 7).1 1 1)
          (TrackedTask.mk 1 7)).map (fun run => run []) = some (Except.ok (), [2, 7])
    ∧ Tracker.deref (TrackedTask.finish
        (Tracker.dropN (FederateVoid.invokeAsyncTracked_true slotDemo.heap slotDemo.fed 7).1 1 1)
        (TrackedTask.mk 1 7)) 1 = none :=
  have hwf : slotDemo.WF := by
    refine ⟨?_, by decide⟩
    intro w hw
    have hw2 : w ∈ [0, 1] := hw
    have hlen : slotDemo.heap.length = 2 := rfl
    rw [hlen]
    simp only [List.mem_cons, List.mem_singleton, List.not_mem_nil, or_false] at hw2
    rcases hw2 with h | h <;> rw [h] <;> decide
  have hmem : 1 ∈ slotDemo.fed.functions.vec := by decide
  have h := FederateVoid.invokeAsync_tracked_keeps_alive slotDemo hwf 7 1 hmem
    (ControlBlock.mk (slotHandler 2) 1) rfl (by decide)
  ⟨⟨hwf, hmem, rfl⟩, h.1.trans rfl, h.2.2.1, by rw [(h.2.2.2.1 1 (le_refl _)).1]; rfl,
    h.2.2.2.2.1⟩

section AppendLemmas

variable {m : Type → Type} [Monad m] [LawfulMonad m] {A R : Type}

/-- One more entry at the end of the sequence is one more call after the others, its result
appended to theirs. -/
theorem Federate.invokeTracked_false_loop_append (a : A) (vec : List (A → m R)) (h : A → m R)
    (results : List R) :
    Federate.invokeTracked_false_loop a (vec ++ [h]) results
      = Federate.invokeTracked_false_loop a vec results >>= fun rs =>
          h a >>= fun r => pure (rs ++ [r]) := by
  induction vec generalizing results with
  | nil => simp [Federate.invokeTracked_false_loop]
  | cons f rest ih =>
    show (f a >>= fun r => Federate.invokeTracked_false_loop a (rest ++ [h]) (results ++ [r])) = _
    simp only [Federate.invokeTracked_false_loop, ih, bind_assoc]

end AppendLemmas

/-- C21: push_back appends and never reorders. Untracked, the sequence after push_back(h) is
the old sequence followed by h; tracked, it is the old sequence followed by the one new weak
entry, which is live and resolves to h, and every earlier entry resolves as before. In both
modes invoke afterwards is the old invoke followed by the call of h, whose result comes
last. -/
theorem FederateBase.push_back_appends {m : Type → Type} [Monad m] [LawfulMonad m]
    {A R : Type} (fed : FederateBase (A → m R) false) (s : TrackedState (A → m R))
    (hs : s.InBounds) (h : A → m R) (a : A) :
    ((fed.push_back_untracked h).functions.vec = fed.functions.vec ++ [h]
      ∧ Federate.invoke [] (fed.push_back_untracked h) a
        = Federate.invoke [] fed a >>= fun rs => h a >>= fun r => pure (rs ++ [r]))
    ∧ ((s.step (.push_back h)).1.fed.functions.vec = s.fed.functions.vec ++ [s.heap.length]
      ∧ lock (s.step (.push_back h)).1.heap s.heap.length = some h
      ∧ (∀ w ∈ s.fed.functions.vec, lock (s.step (.push_back h)).1.heap w = lock s.heap w)
      ∧ Federate.invoke (s.step (.push_back h)).1.heap (s.step (.push_back h)).1.fed a
        = Federate.invoke s.heap s.fed a >>= fun rs => h a >>= fun r => pure (rs ++ [r])) := by
  refine ⟨⟨rfl, ?_⟩, ⟨rfl, ?_, ?_, ?_⟩⟩
  · show Federate.invokeTracked_false_loop a (fed.functions.vec ++ [h]) [] = _
    rw [Federate.invokeTracked_false_loop_append]
    rfl
  · rw [TrackedState.step_push_back_heap]
    exact lock_append_length s.heap h
  · intro w hw
    rw [TrackedState.step_push_back_heap]
    exact lock_append_of_lt _ _ _ (hs w hw)
  · rw [Federate.invoke_eq_liveHandlers, Federate.invoke_eq_liveHandlers]
    have hlive := s.live_push_back hs h
    unfold TrackedState.live at hlive
    show Federate.invokeTracked_false_loop a
        ((s.step (.push_back h)).1.fed.functions.vec.filterMap
          (lock (s.step (.push_back h)).1.heap)) [] = _
    rw [hlive, Federate.invokeTracked_false_loop_append]
    rfl

/-- C21 on the handlers of the test suite: with x*2 and 2^x registered, push_back of x^2 turns
the result of invoke on 8 from 16, 256 into 16, 256, 64, in tracked mode. -/
theorem FederateBase.push_back_appends_test :
    twoHandlers.InBounds
    ∧ Id.run (Federate.invoke twoHandlers.heap twoHandlers.fed 8) = [16, 256]
    ∧ Id.run (Federate.invoke (twoHandlers.step (.push_back square)).1.heap
        (twoHandlers.step (.push_back square)).1.fed 8) = [16, 256, 64] :=
  have hin : twoHandlers.InBounds := by
    intro w hw
    have hw2 : w ∈ [0, 1] := hw
    have hlen : twoHandlers.heap.length = 2 := rfl
    rw [hlen]
    simp only [List.mem_cons, List.mem_singleton, List.not_mem_nil, or_false] at hw2
    rcases hw2 with h | h <;> rw [h] <;> decide
  have h := (FederateBase.push_back_appends FederateBase.init twoHandlers hin square 8).2.2.2.2
  ⟨hin, by decide, (congrArg Id.run h).trans (by decide)⟩

/-- C23: invoke does not modify the registry. In both tracking modes the memory after
invoke is the memory before: same entry sequence, size(), empty() and garbageSize(); an
expired entry that invoke skipped is still in the sequence. -/
theorem Federate.invoke_leaves_registry {m : Type → Type} [Monad m] {A R : Type}
    (s : TrackedState (A → m R)) (fed : FederateBase (A → m R) false) (a : A) :
    ((s.step (.invoke a)).1 = s
      ∧ (s.step (.invoke a)).1.fed.functions.vec = s.fed.functions.vec
      ∧ (s.step (.invoke a)).1.fed.size = s.fed.size
      ∧ (s.step (.invoke a)).1.fed.empty = s.fed.empty
      ∧ FederateBase.garbageSize (s.step (.invoke a)).1.heap (s.step (.invoke a)).1.fed
          = FederateBase.garbageSize s.heap s.fed
      ∧ ∀ w ∈ s.fed.functions.vec, FederateBase.expired s.heap w = true →
          w ∈ (s.step (.invoke a)).1.fed.functions.vec
            ∧ FederateBase.expired (s.step (.invoke a)).1.heap w = true)
    ∧ ((FederateBase.stepUntracked fed (.invoke a)).1 = fed
      ∧ (FederateBase.stepUntracked fed (.invoke a)).1.size = fed.size
      ∧ (FederateBase.stepUntracked fed (.invoke a)).1.empty = fed.empty) :=
  ⟨⟨rfl, rfl, rfl, rfl, rfl, fun _ hw hexp => ⟨hw, hexp⟩⟩, ⟨rfl, rfl, rfl⟩⟩

/-- C23 on the test suite: after invoke(8) on three registered handlers size() is 3 and
garbageSize() is 0; and on a registry whose only entry is expired, invoke returns nothing and
the entry is still counted afterwards. -/
theorem Federate.invoke_leaves_registry_test :
    (threeHandlers.step (.invoke 8)).1.fed.size = 3
    ∧ FederateBase.garbageSize (threeHandlers.step (.invoke 8)).1.heap
        (threeHandlers.step (.invoke 8)).1.fed = 0
    ∧ Id.run (Federate.invoke onlyGarbage.heap onlyGarbage.fed 8) = []
    ∧ (onlyGarbage.step (.invoke 8)).1.fed.size = 1
    ∧ FederateBase.garbageSize (onlyGarbage.step (.invoke 8)).1.heap
        (onlyGarbage.step (.invoke 8)).1.fed = 1 :=
  have h3 := Federate.invoke_leaves_registry threeHandlers FederateBase.init 8
  have h1 := Federate.invoke_leaves_registry onlyGarbage FederateBase.init 8
  ⟨h3.1.2.2.1.trans (by decide), h3.1.2.2.2.2.1.trans (by decide), by decide,
    h1.1.2.2.1.trans (by decide), h1.1.2.2.2.2.1.trans (by decide)⟩

/-- C24: clean() does not change what invoke returns: in tracked mode invoke on the cleaned
registry is invoke on the registry before clean(), on the same heap, that is with no Tracker
dropped in between. -/
theorem FederateBase.clean_preserves_invoke {m : Type → Type} [Monad m] {A R : Type}
    (heap : Heap (A → m R)) (fed : FederateBase (A → m R) true) (a : A) :
    Federate.invoke heap (FederateBase.clean heap fed) a = Federate.invoke heap fed a := by
  show Federate.invokeTracked_true heap (FederateBase.cleanTracked_true heap fed) a
    = Federate.invokeTracked_true heap fed a
  simp only [Federate.invokeTracked_true, Federate.invokeTracked_true_loop_eq,
    FederateBase.cleanTracked_true_vec]
  rw [← filterMap_filter_of_none (lock heap) (fun w => !FederateBase.expired heap w)]
  intro w _ hw
  have hexp : FederateBase.expired heap w = true := by simpa using hw
  simpa [FederateBase.expired] using hexp

section ExpiryLemmas

variable {m : Type → Type} [Monad m] {A R F : Type}

theorem expired_drop_of_expired (heap : Heap F) (t w : Nat)
    (h : FederateBase.expired heap w = true) : FederateBase.expired (Tracker.drop heap t) w = true := by
  by_cases htw : t = w
  · subst htw
    unfold FederateBase.expired lock Tracker.drop at *
    rw [List.getElem?_modify_eq]
    cases hcb : heap[t]? with
    | none => simp
    | some cb =>
      by_cases hz : cb.strong = 0
      · simp [hz]
      · simp [hcb, hz] at h
  · simpa [FederateBase.expired, lock_drop_of_ne heap t w htw] using h

theorem TrackedState.step_keeps_expired (s : TrackedState (A → m R)) (w : Nat)
    (hlt : w < s.heap.length) (hexp : FederateBase.expired s.heap w = true)
    (c : ClientAction m A R) :
    w < (s.step c).1.heap.length ∧ FederateBase.expired (s.step c).1.heap w = true := by
  cases c with
  | push_back f =>
    rw [TrackedState.step_push_back_heap]
    refine ⟨by simp only [List.length_append, List.length_singleton]; omega, ?_⟩
    simpa [FederateBase.expired, lock_append_of_lt s.heap _ w hlt] using hexp
  | copy t =>
    refine ⟨?_, ?_⟩
    · show w < (List.modify _ t s.heap).length
      rw [List.length_modify]
      exact hlt
    · show FederateBase.expired (Tracker.copy s.heap t) w = true
      simpa [FederateBase.expired, lock_copy] using hexp
  | drop t =>
    refine ⟨?_, expired_drop_of_expired s.heap t w hexp⟩
    show w < (List.modify _ t s.heap).length
    rw [List.length_modify]
    exact hlt
  | invoke args => exact ⟨hlt, hexp⟩
  | size => exact ⟨hlt, hexp⟩
  | empty => exact ⟨hlt, hexp⟩
  | garbageSize => exact ⟨hlt, hexp⟩
  | clean => exact ⟨hlt, hexp⟩
  | clear => exact ⟨hlt, hexp⟩

theorem TrackedState.run_keeps_expired (s : TrackedState (A → m R)) (w : Nat)
    (hlt : w < s.heap.length) (hexp : FederateBase.expired s.heap w = true)
    (acts : List (ClientAction m A R)) :
    FederateBase.expired (s.run acts).1.heap w = true := by
  induction acts generalizing s with
  | nil => exact hexp
  | cons c cs ih =>
    rw [TrackedState.run_cons]
    exact ih _ (s.step_keeps_expired w hlt hexp c).1 (s.step_keeps_expired w hlt hexp c).2

theorem TrackedState.garbageSize_step_mono (s : TrackedState (A → m R)) (hin : s.InBounds)
    (c : ClientAction m A R) (hc : c.removes = false) :
    FederateBase.garbageSize s.heap s.fed
      ≤ FederateBase.garbageSize (s.step c).1.heap (s.step c).1.fed := by
  cases c with
  | push_back f =>
    show s.fed.functions.vec.countP (FederateBase.expired s.heap)
      ≤ (s.step (.push_back f)).1.fed.functions.vec.countP
          (FederateBase.expired (s.step (.push_back f)).1.heap)
    rw [TrackedState.step_push_back_vec, TrackedState.step_push_back_heap, List.countP_append]
    have hold : s.fed.functions.vec.countP (FederateBase.expired (s.heap ++ [ControlBlock.mk f 1]))
        = s.fed.functions.vec.countP (FederateBase.expired s.heap) := by
      apply List.countP_congr
      intro w hw
      simp [FederateBase.expired, lock_append_of_lt s.heap _ w (hin w hw)]
    rw [hold]
    exact Nat.le_add_right _ _
  | copy t =>
    show s.fed.functions.vec.countP (FederateBase.expired s.heap)
      ≤ s.fed.functions.vec.countP (FederateBase.expired (Tracker.copy s.heap t))
    apply Nat.le_of_eq
    apply List.countP_congr
    intro w _
    simp [FederateBase.expired, lock_copy]
  | drop t =>
    show s.fed.functions.vec.countP (FederateBase.expired s.heap)
      ≤ s.fed.functions.vec.countP (FederateBase.expired (Tracker.drop s.heap t))
    apply List.countP_mono_left
    intro w _ hw
    exact expired_drop_of_expired s.heap t w hw
  | invoke args => exact Nat.le_refl _
  | size => exact Nat.le_refl _
  | empty => exact Nat.le_refl _
  | garbageSize => exact Nat.le_refl _
  | clean => simp [ClientAction.removes] at hc
  | clear => simp [ClientAction.removes] at hc

theorem TrackedState.mem_step_of_not_removes (s : TrackedState (A → m R)) (w : Nat)
    (hw : w ∈ s.fed.functions.vec) (c : ClientAction m A R) (hc : c.removes = false) :
    w ∈ (s.step c).1.fed.functions.vec := by
  cases c with
  | push_back f =>
    rw [TrackedState.step_push_back_vec]
    exact List.mem_append_left _ hw
  | copy t => exact hw
  | drop t => exact hw
  | invoke args => exact hw
  | size => exact hw
  | empty => exact hw
  | garbageSize => exact hw
  | clean => simp [ClientAction.removes] at hc
  | clear => simp [ClientAction.removes] at hc

theorem TrackedState.run_mono_of_not_removes (s : TrackedState (A → m R)) (hwf : s.WF) (w : Nat)
    (hw : w ∈ s.fed.functions.vec) (acts : List (ClientAction m A R))
    (hacts : ∀ c ∈ acts, c.removes = false) :
    w ∈ (s.run acts).1.fed.functions.vec
    ∧ FederateBase.garbageSize s.heap s.fed
        ≤ FederateBase.garbageSize (s.run acts).1.heap (s.run acts).1.fed := by
  induction acts generalizing s with
  | nil => exact ⟨hw, Nat.le_refl _⟩
  | cons c cs ih =>
    rw [TrackedState.run_cons]
    have hc := hacts c (List.mem_cons_self _ _)
    have h := ih (s.step c).1 (s.wf_step hwf c) (s.mem_step_of_not_removes w hw c hc)
      (fun d hd => hacts d (List.mem_cons_of_mem _ hd))
    exact ⟨h.1, Nat.le_trans (s.garbageSize_step_mono hwf.1 c hc) h.2⟩

theorem not_mem_cleanTracked_true_of_expired (heap : Heap F) (fed : FederateBase F true)
    (w : Nat) (hexp : FederateBase.expired heap w = true) :
    w ∉ (FederateBase.cleanTracked_true heap fed).functions.vec := by
  rw [FederateBase.cleanTracked_true_vec]
  intro hmem
  have := (List.mem_filter.1 hmem).2
  simp [hexp] at this

end ExpiryLemmas

/-- C22: expiry is irreversible. In tracked mode an entry that is expired stays expired over
every later run of registry calls and Tracker copies and drops; as long as neither clean()
nor clear() is called it stays in the sequence and garbageSize() does not decrease; clean()
and clear() take it out. -/
theorem TrackedState.expiry_irreversible {m : Type → Type} [Monad m] {A R : Type}
    (s : TrackedState (A → m R)) (hwf : s.WF) (w : WeakTracker)
    (hw : w ∈ s.fed.functions.vec) (hexp : FederateBase.expired s.heap w = true)
    (acts : List (ClientAction m A R)) :
    FederateBase.expired (s.run acts).1.heap w = true
    ∧ ((∀ c ∈ acts, c.removes = false) →
        w ∈ (s.run acts).1.fed.functions.vec
        ∧ FederateBase.garbageSize s.heap s.fed
            ≤ FederateBase.garbageSize (s.run acts).1.heap (s.run acts).1.fed)
    ∧ w ∉ (FederateBase.clean (s.run acts).1.heap (s.run acts).1.fed).functions.vec
    ∧ w ∉ (s.run acts).1.fed.clear.functions.vec := by
  have hlater := s.run_keeps_expired w (hwf.1 w hw) hexp acts
  refine ⟨hlater, fun hacts => s.run_mono_of_not_removes hwf w hw acts hacts, ?_, ?_⟩
  · exact not_mem_cleanTracked_true_of_expired _ _ w hlater
  · exact List.not_mem_nil w

/-- C22 on a registry with one entry registered without a stored Tracker: after a further
push_back, an attempt to copy and an invoke, the first entry is still expired and in the
sequence, and garbageSize() is still 1. -/
theorem TrackedState.expiry_irreversible_test :
    (onlyGarbage.WF ∧ 0 ∈ onlyGarbage.fed.functions.vec
      ∧ FederateBase.expired onlyGarbage.heap 0 = true
      ∧ ∀ c ∈ ([.push_back powerOf2, .copy 0, .invoke 8] : List (ClientAction Id Int Int)),
          c.removes = false)
    ∧ FederateBase.expired
        (onlyGarbage.run [.push_back powerOf2, .copy 0, .invoke 8]).1.heap 0 = true
    ∧ 0 ∈ (onlyGarbage.run [.push_back powerOf2, .copy 0, .invoke 8]).1.fed.functions.vec
    ∧ FederateBase.garbageSize onlyGarbage.heap onlyGarbage.fed
        ≤ FederateBase.garbageSize
            (onlyGarbage.run [.push_back powerOf2, .copy 0, .invoke 8]).1.heap
            (onlyGarbage.run [.push_back powerOf2, .copy 0, .invoke 8]).1.fed :=
  have hwf : onlyGarbage.WF := by
    refine ⟨?_, by decide⟩
    intro w hw
    have hw2 : w ∈ [0] := hw
    have hlen : onlyGarbage.heap.length = 1 := rfl
    rw [hlen, List.mem_singleton.1 hw2]
    decide
  have hmem : 0 ∈ onlyGarbage.fed.functions.vec := by decide
  have hexp : FederateBase.expired onlyGarbage.heap 0 = true := by decide
  have hacts : ∀ c ∈ ([.push_back powerOf2, .copy 0, .invoke 8] : List (ClientAction Id Int Int)),
      c.removes = false := by
    intro c hc
    simp only [List.mem_cons, List.mem_singleton, List.not_mem_nil, or_false] at hc
    rcases hc with h | h | h <;> subst h <;> rfl
  have h := TrackedState.expiry_irreversible onlyGarbage hwf 0 hmem hexp
    [.push_back powerOf2, .copy 0, .invoke 8]
  ⟨⟨hwf, hmem, hexp, hacts⟩, h.1, (h.2.1 hacts).1, (h.2.1 hacts).2⟩

section MirrorLemmas

variable {m : Type → Type} [Monad m] {A R F : Type}

theorem length_filterMap_of_ne_none {α β : Type} (f : α → Option β) (l : List α)
    (h : ∀ x ∈ l, f x ≠ none) : (l.filterMap f).length = l.length := by
  induction l with
  | nil => rfl
  | cons x rest ih =>
    cases hx : f x with
    | none => exact absurd hx (h x (List.mem_cons_self _ _))
    | some y =>
      simp [List.filterMap_cons, hx, ih (fun z hz => h z (List.mem_cons_of_mem _ hz))]

theorem TrackedState.Mirrors.length_eq {s : TrackedState F} {fed : FederateBase F false}
    (h : s.Mirrors fed) : s.fed.functions.vec.length = fed.functions.vec.length := by
  rw [← h.2.2]
  exact (length_filterMap_of_ne_none (lock s.heap) _ h.2.1).symm

theorem TrackedState.Mirrors.step_mirrors {s : TrackedState (A → m R)}
    {fed : FederateBase (A → m R) false} (h : s.Mirrors fed) (c : UntrackedAction m A R) :
    (s.step c.toTracked).1.Mirrors (FederateBase.stepUntracked fed c).1
    ∧ (s.step c.toTracked).2.value = (FederateBase.stepUntracked fed c).2 := by
  cases c with
  | push_back f =>
    refine ⟨⟨s.inBounds_push_back h.1 f, ?_, ?_⟩, rfl⟩
    · intro w hw
      have hw2 : w ∈ s.fed.functions.vec ++ [s.heap.length] := hw
      show lock (s.heap ++ [ControlBlock.mk f 1]) w ≠ none
      rcases List.mem_append.1 hw2 with hw3 | hw3
      · rw [lock_append_of_lt _ _ _ (h.1 w hw3)]
        exact h.2.1 w hw3
      · rw [List.mem_singleton.1 hw3, lock_append_length]
        simp
    · show (s.step (.push_back f)).1.live = fed.functions.vec ++ [f]
      rw [s.live_push_back h.1 f, h.2.2]
  | invoke args =>
    refine ⟨h, ?_⟩
    show Returned.results (Federate.invoke s.heap s.fed args)
      = Returned.results (Federate.invoke [] fed args)
    rw [Federate.invoke_eq_liveHandlers, Federate.invoke_eq_liveHandlers]
    show Returned.results (Federate.invokeTracked_false_loop args s.live [])
      = Returned.results (Federate.invokeTracked_false_loop args fed.functions.vec [])
    rw [h.2.2]
  | size =>
    refine ⟨h, ?_⟩
    show Returned.count s.fed.functions.vec.length = Returned.count fed.functions.vec.length
    rw [h.length_eq]
  | empty =>
    refine ⟨h, ?_⟩
    show Returned.flag s.fed.functions.vec.isEmpty = Returned.flag fed.functions.vec.isEmpty
    have hlen := h.length_eq
    cases hs : s.fed.functions.vec <;> cases hf : fed.functions.vec <;> simp_all
  | garbageSize =>
    refine ⟨h, ?_⟩
    show Returned.count (s.fed.functions.vec.countP (FederateBase.expired s.heap))
      = Returned.count 0
    have hz : s.fed.functions.vec.countP (FederateBase.expired s.heap) = 0 := by
      rw [List.countP_eq_zero]
      intro w hw
      have := h.2.1 w hw
      cases hl : lock s.heap w with
      | none => exact absurd hl this
      | some f => simp [FederateBase.expired, hl]
    rw [hz]
  | clean =>
    have hv : (FederateBase.cleanTracked_true s.heap s.fed).functions.vec = s.fed.functions.vec := by
      rw [FederateBase.cleanTracked_true_vec, List.filter_eq_self]
      intro w hw
      have := h.2.1 w hw
      cases hl : lock s.heap w with
      | none => exact absurd hl this
      | some f => simp [FederateBase.expired, hl]
    refine ⟨⟨?_, ?_, ?_⟩, rfl⟩
    · intro w hw
      have hw2 : w ∈ (FederateBase.cleanTracked_true s.heap s.fed).functions.vec := hw
      rw [hv] at hw2
      exact h.1 w hw2
    · intro w hw
      have hw2 : w ∈ (FederateBase.cleanTracked_true s.heap s.fed).functions.vec := hw
      rw [hv] at hw2
      exact h.2.1 w hw2
    · show (FederateBase.cleanTracked_true s.heap s.fed).functions.vec.filterMap (lock s.heap)
        = fed.functions.vec
      rw [hv]
      exact h.2.2
  | clear =>
    refine ⟨⟨?_, ?_, rfl⟩, rfl⟩
    · intro w hw
      exact absurd hw (List.not_mem_nil w)
    · intro w hw
      exact absurd hw (List.not_mem_nil w)

theorem TrackedState.Mirrors.run_mirrors {s : TrackedState (A → m R)}
    {fed : FederateBase (A → m R) false} (h : s.Mirrors fed) (acts : List (UntrackedAction m A R)) :
    (s.run (acts.map UntrackedAction.toTracked)).1.Mirrors (FederateBase.runUntracked fed acts).1
    ∧ (s.run (acts.map UntrackedAction.toTracked)).2.map Returned.value
        = (FederateBase.runUntracked fed acts).2 := by
  induction acts generalizing s fed with
  | nil => exact ⟨h, rfl⟩
  | cons c cs ih =>
    have hstep := h.step_mirrors c
    have hrest := ih hstep.1
    refine ⟨hrest.1, ?_⟩
    show ((s.step c.toTracked).2 :: ((s.step c.toTracked).1.run
        (cs.map UntrackedAction.toTracked)).2).map Returned.value
      = (FederateBase.stepUntracked fed c).2
          :: (FederateBase.runUntracked (FederateBase.stepUntracked fed c).1 cs).2
    rw [List.map_cons, hstep.2, hrest.2]

theorem TrackedState.mirrors_init :
    (TrackedState.init : TrackedState F).Mirrors FederateBase.init := by
  refine ⟨TrackedState.inBounds_init, ?_, rfl⟩
  intro w hw
  exact absurd hw (List.not_mem_nil w)

end MirrorLemmas

/-- C25: a tracked registry all of whose Trackers are kept behaves like an untracked one.
For every sequence of push_back, invoke, size, empty, garbageSize, clean and clear calls made
on a fresh registry of either kind, each call returns the same in both (the tracked
push_back hands out a Tracker in addition), and garbageSize() of the tracked registry is 0 at
the end of every such sequence. -/
theorem TrackedState.retained_behaves_untracked {m : Type → Type} [Monad m] {A R : Type}
    (acts : List (UntrackedAction m A R)) :
    ((TrackedState.init : TrackedState (A → m R)).run
        (acts.map UntrackedAction.toTracked)).2.map Returned.value
      = (FederateBase.runUntracked FederateBase.init acts).2
    ∧ FederateBase.garbageSize
        ((TrackedState.init : TrackedState (A → m R)).run (acts.map UntrackedAction.toTracked)).1.heap
        ((TrackedState.init : TrackedState (A → m R)).run (acts.map UntrackedAction.toTracked)).1.fed
      = 0 := by
  have h := (TrackedState.mirrors_init (F := A → m R)).run_mirrors acts
  refine ⟨h.2, ?_⟩
  show List.countP _ _ = 0
  rw [List.countP_eq_zero]
  intro w hw
  have := h.1.2.1 w hw
  cases hl : lock _ w with
  | none => exact absurd hl this
  | some f => simp [FederateBase.expired, hl]

/-- C25 on the handlers of the test suite: x*2, 2^x and x^2 registered, then invoke(8),
size() and garbageSize(): both modes return 16, 256, 64, then 3, then 0. -/
theorem TrackedState.retained_behaves_untracked_test :
    ((TrackedState.init : TrackedState (Int → Id Int)).run
        (([.push_back multiplyBy2, .push_back powerOf2, .push_back square, .invoke 8, .size,
          .garbageSize] : List (UntrackedAction Id Int Int)).map UntrackedAction.toTracked)).2.map
        Returned.value
      = [.nothing, .nothing, .nothing, .results [16, 256, 64], .count 3, .count 0]
    ∧ (FederateBase.runUntracked FederateBase.init
        ([.push_back multiplyBy2, .push_back powerOf2, .push_back square, .invoke 8, .size,
          .garbageSize] : List (UntrackedAction Id Int Int))).2
      = [.nothing, .nothing, .nothing, .results [16, 256, 64], .count 3, .count 0] :=
  have h := (TrackedState.retained_behaves_untracked
    ([.push_back multiplyBy2, .push_back powerOf2, .push_back square, .invoke 8, .size,
      .garbageSize] : List (UntrackedAction Id Int Int))).1
  ⟨h.trans rfl, rfl⟩

section GuardLemmas

variable {m : Type → Type} [Monad m] {A R : Type}

theorem GuardedTrackedState.step_guard (ThreadSafe : Bool) (s : TrackedState (A → m R))
    (c : ClientAction m A R) :
    (GuardedTrackedState.guard ThreadSafe s).step c
      = some (GuardedTrackedState.guard ThreadSafe (s.step c).1, (s.step c).2) := by
  cases c <;> cases ThreadSafe <;> rfl

theorem GuardedTrackedState.run_guard (ThreadSafe : Bool) (s : TrackedState (A → m R))
    (acts : List (ClientAction m A R)) :
    (GuardedTrackedState.guard ThreadSafe s).run acts
      = some (GuardedTrackedState.guard ThreadSafe (s.run acts).1, (s.run acts).2) := by
  induction acts generalizing s with
  | nil => rfl
  | cons c cs ih =>
    simp only [GuardedTrackedState.run, GuardedTrackedState.step_guard, ih]
    rfl

theorem GuardedFederateBase.stepUntracked_guard (ThreadSafe : Bool)
    (fed : FederateBase (A → m R) false) (c : UntrackedAction m A R) :
    (GuardedFederateBase.guard ThreadSafe fed).stepUntracked c
      = some (GuardedFederateBase.guard ThreadSafe (FederateBase.stepUntracked fed c).1,
          (FederateBase.stepUntracked fed c).2) := by
  cases c <;> cases ThreadSafe <;> rfl

theorem GuardedFederateBase.runUntracked_guard (ThreadSafe : Bool)
    (fed : FederateBase (A → m R) false) (acts : List (UntrackedAction m A R)) :
    (GuardedFederateBase.guard ThreadSafe fed).runUntracked acts
      = some (GuardedFederateBase.guard ThreadSafe (FederateBase.runUntracked fed acts).1,
          (FederateBase.runUntracked fed acts).2) := by
  induction acts generalizing fed with
  | nil => rfl
  | cons c cs ih =>
    simp only [GuardedFederateBase.runUntracked, GuardedFederateBase.stepUntracked_guard, ih]
    rfl

theorem GuardedFederateVoid.invoke_guard (ThreadSafe Tracked : Bool) (heap : Heap (A → m Unit))
    (fed : FederateBase (A → m Unit) Tracked) (a : A) :
    GuardedFederateVoid.invoke heap (GuardedFederateBase.guard ThreadSafe fed) a
      = some (GuardedFederateBase.guard ThreadSafe fed, FederateVoid.invoke heap fed a) := by
  cases ThreadSafe <;> rfl

theorem GuardedFederateVoidVoid.invoke_guard_voidvoid (ThreadSafe Tracked : Bool)
    (heap : Heap (Unit → m Unit)) (fed : FederateBase (Unit → m Unit) Tracked) :
    GuardedFederateVoidVoid.invoke heap (GuardedFederateBase.guard ThreadSafe fed)
      = some (GuardedFederateBase.guard ThreadSafe fed, FederateVoid.invoke heap fed ()) := by
  cases Tracked with
  | false =>
    cases ThreadSafe <;>
      exact congrArg (fun x => some (_, x))
        (FederateVoidVoid.invokeTrackedFalse_loop_eq fed.functions.vec)
  | true =>
    cases ThreadSafe <;>
      exact congrArg (fun x => some (_, x))
        (FederateVoidVoid.invokeTrackedTrue_loop_eq heap fed.functions.vec)

end GuardLemmas

/-- C26: the thread-safety flag does not change what one caller observes. From a guard that
nobody holds, every run of client actions on a tracked registry and every run of calls on an
untracked one returns, with ThreadSafe = true as with ThreadSafe = false, and returns what
the calls return without a guard; so does invoke of the void(Args...) registries and of the
four void(void) specialisations, and the guard is given back each time. -/
theorem MutexMember.threadSafe_flag_immaterial {m : Type → Type} [Monad m] {A R : Type}
    (s : TrackedState (A → m R)) (fed : FederateBase (A → m R) false)
    (acts : List (ClientAction m A R)) (actsU : List (UntrackedAction m A R)) :
    (((GuardedTrackedState.guard true s).run acts).map Prod.snd
        = ((GuardedTrackedState.guard false s).run acts).map Prod.snd
      ∧ ((GuardedTrackedState.guard true s).run acts).map Prod.snd = some (s.run acts).2
      ∧ ((GuardedTrackedState.guard true s).run acts).map (fun r => r.1.fed.lock)
          = some MutexMember.unlocked)
    ∧ (((GuardedFederateBase.guard true fed).runUntracked actsU).map Prod.snd
        = ((GuardedFederateBase.guard false fed).runUntracked actsU).map Prod.snd
      ∧ ((GuardedFederateBase.guard true fed).runUntracked actsU).map Prod.snd
          = some (FederateBase.runUntracked fed actsU).2
      ∧ ((GuardedFederateBase.guard true fed).runUntracked actsU).map (fun r => r.1.lock)
          = some MutexMember.unlocked)
    ∧ (∀ (Tracked : Bool) (heapV : Heap (A → m Unit)) (fedV : FederateBase (A → m Unit) Tracked)
        (a : A),
        (GuardedFederateVoid.invoke heapV (GuardedFederateBase.guard true fedV) a).map Prod.snd
          = (GuardedFederateVoid.invoke heapV (GuardedFederateBase.guard false fedV) a).map Prod.snd
        ∧ (GuardedFederateVoid.invoke heapV (GuardedFederateBase.guard true fedV) a).map Prod.snd
          = some (FederateVoid.invoke heapV fedV a))
    ∧ (∀ (Tracked : Bool) (heapV : Heap (Unit → m Unit))
        (fedV : FederateBase (Unit → m Unit) Tracked),
        (GuardedFederateVoidVoid.invoke heapV (GuardedFederateBase.guard true fedV)).map Prod.snd
          = (GuardedFederateVoidVoid.invoke heapV (GuardedFederateBase.guard false fedV)).map
              Prod.snd
        ∧ (GuardedFederateVoidVoid.invoke heapV (GuardedFederateBase.guard true fedV)).map Prod.snd
          = some (FederateVoid.invoke heapV fedV ())) := by
  refine ⟨⟨?_, ?_, ?_⟩, ⟨?_, ?_, ?_⟩, ?_, ?_⟩
  · rw [GuardedTrackedState.run_guard, GuardedTrackedState.run_guard]
    rfl
  · rw [GuardedTrackedState.run_guard]
    rfl
  · rw [GuardedTrackedState.run_guard]
    rfl
  · rw [GuardedFederateBase.runUntracked_guard, GuardedFederateBase.runUntracked_guard]
    rfl
  · rw [GuardedFederateBase.runUntracked_guard]
    rfl
  · rw [GuardedFederateBase.runUntracked_guard]
    rfl
  · intro Tracked heapV fedV a
    rw [GuardedFederateVoid.invoke_guard, GuardedFederateVoid.invoke_guard]
    exact ⟨rfl, rfl⟩
  · intro Tracked heapV fedV
    rw [GuardedFederateVoidVoid.invoke_guard_voidvoid, GuardedFederateVoidVoid.invoke_guard_voidvoid]
    exact ⟨rfl, rfl⟩

/-- C26 on the thread-safe tracked test of the suite: three handlers registered with their
Trackers kept, then invoke(8), size(), garbageSize(), empty(), clean(), size(), clear(),
empty(), size(); with ThreadSafe = true the calls return 16, 256, 64, then 3, 0, false, then
3 after clean(), and true and 0 after clear(). -/
theorem MutexMember.threadSafe_flag_immaterial_test :
    ((GuardedTrackedState.guard true threeHandlers).run
        ([.invoke 8, .size, .garbageSize, .empty, .clean, .size, .clear, .empty, .size] :
          List (ClientAction Id Int Int))).map Prod.snd
      = some [.results [16, 256, 64], .count 3, .count 0, .flag false, .nothing, .count 3,
          .nothing, .flag true, .count 0] :=
  have h := (MutexMember.threadSafe_flag_immaterial threeHandlers FederateBase.init
    ([.invoke 8, .size, .garbageSize, .empty, .clean, .size, .clear, .empty, .size] :
      List (ClientAction Id Int Int)) []).1.2.1
  h.trans rfl

section ActingLemmas

variable {A R F : Type}

theorem Tracker.drop_copy_of_live (heap : Heap F) (f : Nat) (func : F)
    (h : lock heap f = some func) : Tracker.drop (Tracker.copy heap f) f = heap := by
  apply List.ext_getElem?
  intro i
  unfold Tracker.drop Tracker.copy
  rw [List.getElem?_modify, List.getElem?_modify]
  cases hcb : heap[i]? with
  | none => rfl
  | some cb =>
    by_cases hfi : f = i
    · subst hfi
      have hpos : cb.strong ≠ 0 := by
        intro hz
        simp [lock, hcb, hz] at h
      simp [hpos]
    · simp [hfi]

theorem lock_values (heap : Heap (ActingHandler A R)) (w : Nat) :
    lock (ActingHandler.values heap) w = (lock heap w).map ActingHandler.value := by
  unfold lock ActingHandler.values
  rw [List.getElem?_map]
  cases heap[w]? with
  | none => rfl
  | some cb =>
    by_cases hz : cb.strong = 0
    · simp [hz]
    · simp [hz]

/-- While no handler that is called acts on a Tracker, every iteration finds the heap of the
time of the call. -/
theorem Federate.invokeTracked_true_acting_loop_quiet (args : A)
    (heap : Heap (ActingHandler A R)) (vec : List WeakTracker)
    (hquiet : ∀ w ∈ vec, ∀ func, lock heap w = some func → (func args).2 = [])
    (results : List R) :
    Federate.invokeTracked_true_acting_loop args heap vec results
      = (heap, results ++ (vec.filterMap (lock heap)).map (fun func => (func args).1)) := by
  induction vec generalizing results with
  | nil => simp [Federate.invokeTracked_true_acting_loop]
  | cons f rest ih =>
    have hrest : ∀ w ∈ rest, ∀ func, lock heap w = some func → (func args).2 = [] :=
      fun w hw => hquiet w (List.mem_cons_of_mem _ hw)
    cases hl : lock heap f with
    | none =>
      simp only [Federate.invokeTracked_true_acting_loop, hl, List.filterMap_cons]
      exact ih hrest results
    | some func =>
      have hq := hquiet f (List.mem_cons_self _ _) func hl
      simp only [Federate.invokeTracked_true_acting_loop, hl, List.filterMap_cons, hq,
        TrackerOp.applyAll, List.foldl_nil, Tracker.drop_copy_of_live heap f func hl]
      rw [ih hrest]
      simp

end ActingLemmas

/-- C2 as stated fails when a handler acts on a Tracker while invoke runs: two handlers are
registered with their Trackers kept, so that size() is 2 and garbageSize() is 0 when invoke
is called, and the first handler destroys the Tracker of the second; invoke on 8 returns
the one result 16, not two results. -/
theorem Federate.invoke_acting_handler_fewer_results :
    dropsNext.fed.size = 2
    ∧ FederateBase.garbageSize dropsNext.heap dropsNext.fed = 0
    ∧ (Federate.invokeTracked_true_acting dropsNext.heap dropsNext.fed 8).2 = [16]
    ∧ (Federate.invokeTracked_true_acting dropsNext.heap dropsNext.fed 8).2.length
        ≠ dropsNext.fed.size - FederateBase.garbageSize dropsNext.heap dropsNext.fed := by
  refine ⟨by decide, by decide, by decide, by decide⟩

/-- C2, amended: in tracked mode, when no handler that is called acts on a Tracker while
invoke runs, invoke returns exactly the results of the entries that are not expired when it
is called, in sequence order and without any placeholder, as many as size() minus
garbageSize() at that time; it leaves the heap as it found it and returns what the loop over
the heap of the time of the call returns. -/
theorem Federate.invoke_tracked_live_entries_quiet {A R : Type}
    (heap : Heap (ActingHandler A R)) (fed : FederateBase (ActingHandler A R) true) (a : A)
    (hquiet : ∀ w ∈ fed.functions.vec, ∀ func, lock heap w = some func → (func a).2 = []) :
    Federate.invokeTracked_true_acting heap fed a
        = (heap, (fed.functions.vec.filterMap (lock heap)).map (fun func => (func a).1))
    ∧ (Federate.invokeTracked_true_acting heap fed a).2.length
        = fed.size - FederateBase.garbageSize heap fed
    ∧ (Federate.invokeTracked_true_acting heap fed a).2
        = Id.run (Federate.invoke (ActingHandler.values heap)
            (ActingHandler.registry fed) a) := by
  have h1 : Federate.invokeTracked_true_acting heap fed a
      = (heap, (fed.functions.vec.filterMap (lock heap)).map (fun func => (func a).1)) := by
    unfold Federate.invokeTracked_true_acting
    rw [Federate.invokeTracked_true_acting_loop_quiet a heap _ hquiet []]
    simp
  refine ⟨h1, ?_, ?_⟩
  · rw [h1]
    have hlen := length_liveHandlers_tracked heap fed
    have hlive : (FederateBase.liveHandlers heap fed).length
        = (fed.functions.vec.filterMap (lock heap)).length := rfl
    simp only [List.length_map]
    omega
  · rw [h1]
    show _ = Id.run (Federate.invokeTracked_true (ActingHandler.values heap)
      (ActingHandler.registry fed) a)
    rw [Federate.invokeTracked_true_pure]
    have hmap : fed.functions.vec.filterMap (lock (ActingHandler.values heap))
        = (fed.functions.vec.filterMap (lock heap)).map ActingHandler.value := by
      rw [List.map_filterMap]
      congr 1
      funext w
      rw [lock_values]
    show _ = ((fed.functions.vec.filterMap (lock (ActingHandler.values heap))).map
      (fun f => Id.run (f a)))
    rw [hmap, List.map_map]
    rfl

/-- C2, amended, on two handlers that act on no Tracker, the first of which is expired when
invoke is called: size() is 2, garbageSize() is 1 and invoke on 8 returns the one result
256 of the live entry. -/
theorem Federate.invoke_tracked_live_entries_quiet_test :
    (∀ w ∈ quietPair.fed.functions.vec, ∀ func,
        lock quietPair.heap w = some func → (func 8).2 = [])
    ∧ quietPair.fed.size = 2
    ∧ FederateBase.garbageSize quietPair.heap quietPair.fed = 1
    ∧ (Federate.invokeTracked_true_acting quietPair.heap quietPair.fed 8).2 = [256]
    ∧ (Federate.invokeTracked_true_acting quietPair.heap quietPair.fed 8).2.length = 2 - 1 :=
  have hquiet : ∀ w ∈ quietPair.fed.functions.vec, ∀ func,
      lock quietPair.heap w = some func → (func 8).2 = [] := by
    intro w hw func hl
    have hw2 : w ∈ [0, 1] := hw
    simp only [List.mem_cons, List.mem_singleton, List.not_mem_nil, or_false] at hw2
    rcases hw2 with h | h
    · subst h
      have hnone : lock quietPair.heap 0 = none := rfl
      rw [hnone] at hl
      exact absurd hl (by simp)
    · subst h
      have hsome : lock quietPair.heap 1 = some (fun x => (powerOf2 x, [])) := rfl
      rw [hsome] at hl
      cases hl
      rfl
  have h := Federate.invoke_tracked_live_entries_quiet quietPair.heap quietPair.fed 8 hquiet
  ⟨hquiet, by decide, by decide, by decide, h.2.1⟩

section UnderGuardLemmas

variable {ThreadSafe : Bool} {A R : Type}

end UnderGuardLemmas

